import Mathlib

/-!
# Verification of the robonav incremental pathfinding engine

Shallow embedding of the search engine of the `robonav` repository:
`src/position.rs`, `src/grid.rs`, `src/node.rs`, `src/pathfinding_state.rs`.

Machine integers (`i32`) are modelled as `Int` (no arithmetic in the engine
can overflow on the grids the claims quantify over, and no wrapping semantics
are relied upon).  `HashMap` is modelled as an association list where `insert`
prepends (lookup returns the most recent binding, matching overwrite
semantics); `HashSet` is modelled as a duplicate-free list in insertion order
(set iteration order is only ever used for writes to distinct grid cells,
which commute).  `BinaryHeap` is modelled as a list whose `pop` removes a
maximal element under the `Ord` implementation of `Node`; Rust leaves the
choice among equal-priority elements unspecified, and every concrete run used
below is checked to have a unique maximum at each pop.
-/

namespace RoboNav

/-- `Position` from `src/position.rs`: an integer grid coordinate. -/
structure Position where
  x : Int
  y : Int
deriving DecidableEq, Repr

/-- `Position::neighbors`: north, east, south, west, in this order. -/
def Position.neighbors (p : Position) : List Position :=
  [⟨p.x, p.y - 1⟩, ⟨p.x + 1, p.y⟩, ⟨p.x, p.y + 1⟩, ⟨p.x - 1, p.y⟩]

/-- `Position::manhattan_distance_to`. -/
def Position.manhattan_distance_to (p q : Position) : Int :=
  (p.x - q.x).natAbs + (p.y - q.y).natAbs

/-- `CellType` from `src/grid.rs`. -/
inductive CellType where
  | Empty | Obstacle | Start | Goal | Path | Visited | Frontier | Current
deriving DecidableEq, Repr

/-- `Grid` from `src/grid.rs`.  The display-only `size : f32` field is
omitted; it is never read by the engine. -/
structure Grid where
  cells : List (List CellType)
  width : Nat
  height : Nat
deriving DecidableEq, Repr

namespace Grid

/-- `Grid::is_valid_position`. -/
def is_valid_position (g : Grid) (p : Position) : Bool :=
  0 ≤ p.x && p.x < (g.width : Int) && 0 ≤ p.y && p.y < (g.height : Int)

/-- `Grid::get_cell`: invalid positions read as `Obstacle`.  A valid position
whose row is missing from `cells` (a state Rust would panic on) also reads as
`Obstacle`. -/
def get_cell (g : Grid) (p : Position) : CellType :=
  if g.is_valid_position p then
    ((g.cells.getD p.y.toNat []).getD p.x.toNat CellType.Obstacle)
  else CellType.Obstacle

/-- `Grid::set_cell`: writes only at valid positions. -/
def set_cell (g : Grid) (p : Position) (c : CellType) : Grid :=
  if g.is_valid_position p then
    { g with cells := g.cells.set p.y.toNat ((g.cells.getD p.y.toNat []).set p.x.toNat c) }
  else g

/-- `Grid::is_walkable`. -/
def is_walkable (g : Grid) (p : Position) : Bool :=
  g.is_valid_position p && !(g.get_cell p == CellType.Obstacle)

/-- `Grid::mark_path`. -/
def mark_path (g : Grid) (path : List Position)
    (start_pos goal_pos : Option Position) : Grid :=
  match path with
  | [] => g
  | pos :: rest =>
    (if some pos ≠ start_pos ∧ some pos ≠ goal_pos then g.set_cell pos CellType.Path
     else g).mark_path rest start_pos goal_pos

/-- `Grid::mark_visited`.  NOTE the `&&`/`||` grouping mirrors Rust
precedence: `(a && b && c) || d`. -/
def mark_visited (g : Grid) (positions : List Position)
    (start_pos goal_pos : Option Position) : Grid :=
  match positions with
  | [] => g
  | pos :: rest =>
    (if (some pos ≠ start_pos ∧ some pos ≠ goal_pos ∧ g.get_cell pos = CellType.Empty)
        ∨ g.get_cell pos = CellType.Frontier then
      g.set_cell pos CellType.Visited
     else g).mark_visited rest start_pos goal_pos

/-- `Grid::mark_previous_node_as_visited`: unconditional write. -/
def mark_previous_node_as_visited (g : Grid) (position : Position) : Grid :=
  g.set_cell position CellType.Visited

/-- `Grid::mark_frontier`. -/
def mark_frontier (g : Grid) (positions : List Position)
    (start_pos goal_pos : Option Position) : Grid :=
  match positions with
  | [] => g
  | pos :: rest =>
    (if some pos ≠ start_pos ∧ some pos ≠ goal_pos ∧ g.get_cell pos = CellType.Empty then
      g.set_cell pos CellType.Frontier
     else g).mark_frontier rest start_pos goal_pos

/-- `Grid::mark_current`: unconditional write. -/
def mark_current (g : Grid) (pos : Position) : Grid :=
  g.set_cell pos CellType.Current

/-- `Grid::get_walkable_neighbors`. -/
def get_walkable_neighbors (g : Grid) (pos : Position) : List Position :=
  pos.neighbors.filter (fun n => g.is_walkable n)

end Grid

/-- `Node` from `src/node.rs`.  `PartialEq`/`Eq` are *derived* there, so Rust
node equality is structural (all three fields); this is `=` on this
structure. -/
structure Node where
  position : Position
  g_cost : Int
  h_cost : Int
deriving DecidableEq, Repr

/-- `Node::f_cost`. -/
def Node.f_cost (n : Node) : Int := n.g_cost + n.h_cost

/-- `impl Ord for Node` in `src/node.rs`: comparison is reversed on `f_cost`
(then on `h_cost`) so that `BinaryHeap`'s max-heap behaves as a min-heap over
`(f_cost, h_cost)`. -/
def Node.cmp (a b : Node) : Ordering :=
  match compare b.f_cost a.f_cost with
  | Ordering.eq => compare b.h_cost a.h_cost
  | o => o

/-- `BinaryHeap::pop` model: removes a maximal element under `Node.cmp`
(keeping the leftmost among `cmp`-equal candidates).  Rust does not specify
which of several `cmp`-equal maxima is popped; concrete runs below avoid
such ties. -/
def heapPopMax : List Node → Option (Node × List Node)
  | [] => none
  | n :: rest =>
    match heapPopMax rest with
    | none => some (n, [])
    | some (m, rest') =>
      if (n.cmp m) = Ordering.lt then some (m, n :: rest') else some (n, rest)

/-- Association-list lookup: first (most recently inserted) binding wins,
matching `HashMap` overwrite semantics when inserts prepend. -/
def alookup {β : Type} (l : List (Position × β)) (k : Position) : Option β :=
  match l with
  | [] => none
  | (k', v) :: t => if k' = k then some v else alookup t k

/-- `HashSet::insert` model on an insertion-ordered duplicate-free list. -/
def setInsert (l : List Position) (p : Position) : List Position :=
  if p ∈ l then l else l ++ [p]

/-- `NeighborInfo` from `src/pathfinding_state.rs`. -/
structure NeighborInfo where
  pos : Position
  g : Option Int
  h : Option Int
  f : Option Int
  decision : String
deriving DecidableEq, Repr

/-- `StepResult` from `src/pathfinding_state.rs`. -/
inductive StepResult where
  | Continue
  | PathFound (path : List Position)
  | NoPath
deriving DecidableEq, Repr

/-- `Algorithm` from `src/algorithms/mod.rs`. -/
inductive Algorithm where
  | AStar | Bfs | Dfs
deriving DecidableEq, Repr

/-- `PathfindingState` from `src/pathfinding_state.rs`.
`dfs_stack` keeps the Rust `Vec` order: push and pop happen at the end. -/
structure PathfindingState where
  open_set : List Node
  bfs_queue : List Position
  dfs_stack : List Position
  closed_set : List Position
  came_from : List (Position × Position)
  g_costs : List (Position × Int)
  h_costs : List (Position × Int)
  f_costs : List (Position × Int)
  current_node : Option Position
  step_count : Nat
  last_step_info : String
  last_neighbors : List NeighborInfo
  previous_node : Option Position
deriving DecidableEq, Repr

/-- `PathfindingState::default` / `PathfindingState::new`. -/
def PathfindingState.default : PathfindingState :=
  ⟨[], [], [], [], [], [], [], [], none, 0, "", [], none⟩

/-- `PathfindingState::initialize` (renamed: seeds exactly one frontier after
resetting the whole state). -/
def initRun (algorithm : Algorithm) (start goal : Position) : PathfindingState :=
  let s := PathfindingState.default
  match algorithm with
  | Algorithm.AStar =>
    let h := start.manhattan_distance_to goal
    { s with open_set := [⟨start, 0, h⟩],
             g_costs := [(start, 0)],
             h_costs := [(start, h)],
             f_costs := [(start, h)] }
  | Algorithm.Bfs =>
    { s with bfs_queue := [start], g_costs := [(start, 0)] }
  | Algorithm.Dfs =>
    { s with dfs_stack := [start], g_costs := [(start, 0)] }

/-- The loop body of `PathfindingState::reconstruct_path`: follow `came_from`
back-pointers collecting positions (most recent first).  The Rust loop has no
fuel and diverges on a cyclic map; fuel `cf.length + 1` is shown sufficient
on every state the engine reaches. -/
def chainAux : Nat → List (Position × Position) → Position → List Position
  | 0, _, c => [c]
  | fuel + 1, cf, c =>
    match alookup cf c with
    | none => [c]
    | some p => c :: chainAux fuel cf p

/-- `PathfindingState::reconstruct_path`. -/
def reconstruct_path (cf : List (Position × Position)) (goal : Position) :
    List Position :=
  (chainAux (cf.length + 1) cf goal).reverse

/-- The inner `for existing in &open_snapshot` loop of `step_astar`: the
first snapshot entry for this position whose `g_cost` is at most the
tentative g (the entry that sets `should_add = false`). -/
def astarBlocker (open_snapshot : List Node) (neighbor_pos : Position)
    (tentative_g : Int) : Option Node :=
  open_snapshot.find? (fun e => e.position == neighbor_pos && decide (e.g_cost ≤ tentative_g))

/-- The decision loop of `step_astar` over the candidate neighbors: collects
`neighbors_to_add` and the `NeighborInfo` records, in loop order. -/
def astarDecide (open_snapshot : List Node) (cur_g : Int) (goal : Position) :
    List Position → List (Position × Node) × List NeighborInfo
  | [] => ([], [])
  | neighbor_pos :: rest =>
    let tentative_g := cur_g + 1
    let h_cost := neighbor_pos.manhattan_distance_to goal
    let (toAdd, infos) := astarDecide open_snapshot cur_g goal rest
    match astarBlocker open_snapshot neighbor_pos tentative_g with
    | some existing =>
      (toAdd,
       ⟨neighbor_pos, some tentative_g, some h_cost, some (tentative_g + h_cost),
        "skip: existing g=" ++ toString existing.g_cost ++ " ≤ tentative g=" ++
          toString tentative_g⟩ :: infos)
    | none =>
      ((neighbor_pos, ⟨neighbor_pos, tentative_g, h_cost⟩) :: toAdd,
       ⟨neighbor_pos, some tentative_g, some h_cost, some (tentative_g + h_cost),
        "push: g=" ++ toString tentative_g ++ ", h=" ++ toString h_cost ++
          ", f=" ++ toString (tentative_g + h_cost)⟩ :: infos)

/-- The `for (neighbor_pos, neighbor_node) in neighbors_to_add` loop of
`step_astar`: records back-pointer and costs, pushes the node, marks the
frontier cell. -/
def astarAdd (cur : Position) :
    List (Position × Node) → PathfindingState → Grid → PathfindingState × Grid
  | [], s, grid => (s, grid)
  | npn :: rest, s, grid =>
    astarAdd cur rest
      { s with
        came_from := (npn.1, cur) :: s.came_from,
        g_costs := (npn.1, npn.2.g_cost) :: s.g_costs,
        h_costs := (npn.1, npn.2.h_cost) :: s.h_costs,
        f_costs := (npn.1, npn.2.g_cost + npn.2.h_cost) :: s.f_costs,
        open_set := s.open_set ++ [npn.2] }
      (grid.mark_frontier [npn.1] none none)

/-- `PathfindingState::step_astar`. -/
def step_astar (s : PathfindingState) (goal : Position) (grid : Grid) :
    PathfindingState × Grid × StepResult :=
  match heapPopMax s.open_set with
  | none =>
    ({ s with last_step_info := "Open set empty → no path" }, grid, StepResult.NoPath)
  | some (current_node, restOpen) =>
    let s := { s with
      open_set := restOpen,
      closed_set := setInsert s.closed_set current_node.position,
      current_node := some current_node.position,
      step_count := s.step_count + 1 }
    let grid := match s.previous_node with
      | some prev => grid.mark_previous_node_as_visited prev
      | none => grid
    let s := { s with previous_node := some current_node.position }
    let grid := grid.mark_current current_node.position
    let s := { s with
      last_step_info := "Step " ++ toString s.step_count ++ ": pop (" ++
        toString current_node.position.x ++ ", " ++ toString current_node.position.y ++
        ") with g=" ++ toString current_node.g_cost ++ ", h=" ++
        toString current_node.h_cost ++ ", f=" ++
        toString (current_node.g_cost + current_node.h_cost) ++ " (" ++
        toString s.open_set.length ++ " open, " ++
        toString s.closed_set.length ++ " closed)",
      last_neighbors := [] }
    if current_node.position = goal then
      (s, grid, StepResult.PathFound (reconstruct_path s.came_from current_node.position))
    else
      let neighbors := (grid.get_walkable_neighbors current_node.position).filter
        (fun pos => !(pos ∈ s.closed_set : Bool))
      let open_snapshot := s.open_set
      let da := astarDecide open_snapshot current_node.g_cost goal neighbors
      let s := { s with last_neighbors := da.2 }
      let sg := astarAdd current_node.position da.1 s grid
      let grid := sg.2.mark_visited sg.1.closed_set none none
      (sg.1, grid, StepResult.Continue)

/-- The `for neighbor in neighbors` loop of `step_bfs`: first discovery
records the back-pointer and `g`, enqueues, and marks the frontier cell;
positions already closed or already discovered are skipped. -/
def bfsLoop (current : Position) (g : Int) :
    List Position → PathfindingState → Grid → PathfindingState × Grid
  | [], s, grid => (s, grid)
  | neighbor :: rest, s, grid =>
    if neighbor ∈ s.closed_set ∨ (alookup s.came_from neighbor).isSome then
      bfsLoop current g rest
        { s with last_neighbors := s.last_neighbors ++
            [⟨neighbor, none, none, none, "skip: already seen"⟩] } grid
    else
      let new_g := g + 1
      bfsLoop current g rest
        { s with
          came_from := (neighbor, current) :: s.came_from,
          g_costs := (neighbor, new_g) :: s.g_costs,
          bfs_queue := s.bfs_queue ++ [neighbor],
          last_neighbors := s.last_neighbors ++
            [⟨neighbor, some new_g, none, none, "enqueue"⟩] }
        (grid.mark_frontier [neighbor] none none)

/-- The `for neighbor in neighbors` loop of `step_dfs` (identical to BFS's
except it pushes on `dfs_stack` and logs "push"). -/
def dfsLoop (current : Position) (g : Int) :
    List Position → PathfindingState → Grid → PathfindingState × Grid
  | [], s, grid => (s, grid)
  | neighbor :: rest, s, grid =>
    if neighbor ∈ s.closed_set ∨ (alookup s.came_from neighbor).isSome then
      dfsLoop current g rest
        { s with last_neighbors := s.last_neighbors ++
            [⟨neighbor, none, none, none, "skip: already seen"⟩] } grid
    else
      let new_g := g + 1
      dfsLoop current g rest
        { s with
          came_from := (neighbor, current) :: s.came_from,
          g_costs := (neighbor, new_g) :: s.g_costs,
          dfs_stack := s.dfs_stack ++ [neighbor],
          last_neighbors := s.last_neighbors ++
            [⟨neighbor, some new_g, none, none, "push"⟩] }
        (grid.mark_frontier [neighbor] none none)

/-- `PathfindingState::step_bfs`. -/
def step_bfs (s : PathfindingState) (goal : Position) (grid : Grid) :
    PathfindingState × Grid × StepResult :=
  match s.bfs_queue with
  | [] =>
    ({ s with last_step_info := "Queue empty → no path" }, grid, StepResult.NoPath)
  | current :: rest =>
    let s := { s with
      bfs_queue := rest,
      current_node := some current,
      closed_set := setInsert s.closed_set current,
      step_count := s.step_count + 1 }
    let grid := match s.previous_node with
      | some prev => grid.mark_previous_node_as_visited prev
      | none => grid
    let s := { s with previous_node := some current }
    let grid := grid.mark_current current
    let g := (alookup s.g_costs current).getD 0
    let s := { s with
      last_step_info := "Step " ++ toString s.step_count ++ ": pop (" ++
        toString current.x ++ ", " ++ toString current.y ++ ") at distance g=" ++
        toString g ++ " (queue=" ++ toString s.bfs_queue.length ++ ", closed=" ++
        toString s.closed_set.length ++ ")",
      last_neighbors := [] }
    if current = goal then
      (s, grid, StepResult.PathFound (reconstruct_path s.came_from current))
    else
      let neighbors := grid.get_walkable_neighbors current
      let sg := bfsLoop current g neighbors s grid
      let grid := sg.2.mark_visited sg.1.closed_set none none
      (sg.1, grid, StepResult.Continue)

/-- `PathfindingState::step_dfs`. -/
def step_dfs (s : PathfindingState) (goal : Position) (grid : Grid) :
    PathfindingState × Grid × StepResult :=
  match s.dfs_stack.getLast? with
  | none =>
    ({ s with last_step_info := "Stack empty → no path" }, grid, StepResult.NoPath)
  | some current =>
    let s := { s with
      dfs_stack := s.dfs_stack.dropLast,
      current_node := some current,
      closed_set := setInsert s.closed_set current,
      step_count := s.step_count + 1 }
    let grid := match s.previous_node with
      | some prev => grid.mark_previous_node_as_visited prev
      | none => grid
    let s := { s with previous_node := some current }
    let grid := grid.mark_current current
    let g := (alookup s.g_costs current).getD 0
    let s := { s with
      last_step_info := "Step " ++ toString s.step_count ++ ": pop (" ++
        toString current.x ++ ", " ++ toString current.y ++ ") depth g=" ++
        toString g ++ " (stack=" ++ toString s.dfs_stack.length ++ ", closed=" ++
        toString s.closed_set.length ++ ")",
      last_neighbors := [] }
    if current = goal then
      (s, grid, StepResult.PathFound (reconstruct_path s.came_from current))
    else
      let neighbors := (grid.get_walkable_neighbors current).reverse
      let sg := dfsLoop current g neighbors s grid
      let grid := sg.2.mark_visited sg.1.closed_set none none
      (sg.1, grid, StepResult.Continue)

/-- `PathfindingState::frontier_len`. -/
def PathfindingState.frontier_len (s : PathfindingState) (algorithm : Algorithm) : Nat :=
  match algorithm with
  | Algorithm.AStar => s.open_set.length
  | Algorithm.Bfs => s.bfs_queue.length
  | Algorithm.Dfs => s.dfs_stack.length

/-- `PathfindingState::step`. -/
def step (algorithm : Algorithm) (s : PathfindingState) (goal : Position)
    (grid : Grid) : PathfindingState × Grid × StepResult :=
  match algorithm with
  | Algorithm.AStar => step_astar s goal grid
  | Algorithm.Bfs => step_bfs s goal grid
  | Algorithm.Dfs => step_dfs s goal grid

/-- Outcome of the caller's loop so far: still going, or stopped at the first
terminal `StepResult`. -/
inductive RunStatus where
  | running
  | foundPath (path : List Position)
  | noPath
deriving DecidableEq, Repr

/-- A snapshot of the caller's loop: the engine state, the grid it paints,
and whether a terminal outcome has been returned. -/
structure RunState where
  s : PathfindingState
  grid : Grid
  status : RunStatus
deriving DecidableEq, Repr

/-- One iteration of the caller's loop: call `step` unless a terminal outcome
was already returned (the caller stops calling then). -/
def runStep1 (algorithm : Algorithm) (goal : Position) (r : RunState) : RunState :=
  match r.status with
  | RunStatus.running =>
    match step algorithm r.s goal r.grid with
    | (s', grid', StepResult.Continue) => ⟨s', grid', RunStatus.running⟩
    | (s', grid', StepResult.PathFound p) => ⟨s', grid', RunStatus.foundPath p⟩
    | (s', grid', StepResult.NoPath) => ⟨s', grid', RunStatus.noPath⟩
  | _ => r

/-- `k` iterations of the caller's loop. -/
def runSteps (algorithm : Algorithm) (goal : Position) (k : Nat) (r : RunState) :
    RunState :=
  match k with
  | 0 => r
  | k + 1 => runSteps algorithm goal k (runStep1 algorithm goal r)

/-- The run state right after `initialize`. -/
def initRunState (algorithm : Algorithm) (start goal : Position) (grid : Grid) :
    RunState :=
  ⟨initRun algorithm start goal, grid, RunStatus.running⟩

/-! ## The four-connected walkability graph (the claims' mathematical referent) -/

/-- Four-connected adjacency. -/
def adjacent (p q : Position) : Prop := q ∈ p.neighbors

instance (p q : Position) : Decidable (adjacent p q) := by
  unfold adjacent; infer_instance

/-- Consecutive elements of the list are four-connected. -/
def consecAdj : List Position → Prop
  | p :: q :: t => adjacent p q ∧ consecAdj (q :: t)
  | _ => True

instance : ∀ l : List Position, Decidable (consecAdj l)
  | [] => Decidable.isTrue trivial
  | [_] => Decidable.isTrue trivial
  | p :: q :: t =>
    letI : Decidable (consecAdj (q :: t)) := instDecidableConsecAdj (q :: t)
    inferInstanceAs (Decidable (adjacent p q ∧ consecAdj (q :: t)))

/-- A walkable path from `start` to `goal` in the four-connected walkability
graph of `g`: nonempty, every position walkable, consecutive positions
adjacent.  Its edge count is `l.length - 1`. -/
def Grid.isPath (g : Grid) (start goal : Position) (l : List Position) : Prop :=
  l.head? = some start ∧ l.getLast? = some goal ∧
    (∀ p ∈ l, g.is_walkable p) ∧ consecAdj l

instance (g : Grid) (start goal : Position) (l : List Position) :
    Decidable (g.isPath start goal l) := by
  unfold Grid.isPath; infer_instance

/-- The walkable cells of a grid, enumerated row by row. -/
def Grid.walkableCells (g : Grid) : List Position :=
  (List.range g.height).flatMap (fun (y : Nat) =>
    (List.range g.width).filterMap (fun (x : Nat) =>
      if g.is_walkable ⟨(x : Int), (y : Int)⟩ = true
      then some (⟨(x : Int), (y : Int)⟩ : Position) else none))

/-- The number of walkable cells of a grid. -/
def Grid.walkableCount (g : Grid) : Nat := g.walkableCells.length

/-! ## Observables of a run, used to state concrete facts about runs -/

/-- The `came_from` view of a run snapshot. -/
def RunState.cameFromAt (r : RunState) (p : Position) : Option Position :=
  alookup r.s.came_from p

/-- Whether the run has returned a terminal outcome. -/
def RunState.isTerminal (r : RunState) : Bool :=
  match r.status with
  | RunStatus.running => false
  | _ => true

/-- Whether the next A* pop would be a stale entry: the frontier's maximal
entry is for a position already in `closed_set`. -/
def RunState.staleAtFront (r : RunState) : Bool :=
  match heapPopMax r.s.open_set with
  | some (e, _) => e.position ∈ r.s.closed_set
  | none => false

/-! ## Concrete grids used as inputs for witnesses and counterexamples -/

/-- Shorthand for building rows of cells: `true` = obstacle. -/
def row (l : List Bool) : List CellType :=
  l.map (fun b => if b then CellType.Obstacle else CellType.Empty)

/-- A 5×4 grid (obstacles at (2,1), (0,2), (4,2), (3,3)) on which an A* run
from (4,0) towards the enclosed goal (4,3) re-admits position (1,1) and later
pops a stale entry for it. -/
def cexGrid : Grid :=
  { cells := [row [false, false, false, false, false],
              row [false, false, true, false, false],
              row [true, false, false, false, true],
              row [false, false, false, true, false]],
    width := 5, height := 4 }

/-- A 1×1 grid holding a single empty cell. -/
def oneCellGrid : Grid :=
  { cells := [row [false]], width := 1, height := 1 }

/-- A 2×1 grid of two empty cells. -/
def twoCellGrid : Grid :=
  { cells := [row [false, false]], width := 2, height := 1 }

/-- A 1×1 grid whose only cell is classified `Start`. -/
def startCellGrid : Grid :=
  { cells := [[CellType.Start]], width := 1, height := 1 }

/-! ## Basic lemmas about grid cell access -/

theorem Grid.valid_iff (g : Grid) (p : Position) :
    g.is_valid_position p = true ↔
      0 ≤ p.x ∧ p.x < (g.width : Int) ∧ 0 ≤ p.y ∧ p.y < (g.height : Int) := by
  simp [Grid.is_valid_position, and_assoc]

theorem Int.toNat_injective_of_nonneg {a b : Int} (ha : 0 ≤ a) (hb : 0 ≤ b)
    (h : a.toNat = b.toNat) : a = b := by
  have := Int.toNat_of_nonneg ha
  have := Int.toNat_of_nonneg hb
  omega

theorem Grid.set_cell_width (g : Grid) (q : Position) (c : CellType) :
    (g.set_cell q c).width = g.width := by
  unfold Grid.set_cell; split <;> rfl

theorem Grid.set_cell_height (g : Grid) (q : Position) (c : CellType) :
    (g.set_cell q c).height = g.height := by
  unfold Grid.set_cell; split <;> rfl

theorem Grid.set_cell_valid (g : Grid) (q : Position) (c : CellType) (p : Position) :
    (g.set_cell q c).is_valid_position p = g.is_valid_position p := by
  unfold Grid.set_cell; split <;> rfl

/-- Writing one cell does not change any other cell. -/
theorem Grid.get_cell_set_cell_ne (g : Grid) (q : Position) (c : CellType)
    (p : Position) (h : p ≠ q) : (g.set_cell q c).get_cell p = g.get_cell p := by
  unfold Grid.set_cell
  split
  case isFalse => rfl
  case isTrue hq =>
    show Grid.get_cell ⟨_, g.width, g.height⟩ p = _
    unfold Grid.get_cell
    have hv : Grid.is_valid_position ⟨g.cells.set q.y.toNat
        ((g.cells.getD q.y.toNat []).set q.x.toNat c), g.width, g.height⟩ p
        = g.is_valid_position p := rfl
    rw [hv]
    split
    case isFalse => rfl
    case isTrue hp =>
      show ((g.cells.set q.y.toNat _).getD p.y.toNat []).getD p.x.toNat _ = _
      rcases (g.valid_iff p).mp hp with ⟨hpx, _, hpy, _⟩
      rcases (g.valid_iff q).mp hq with ⟨hqx, _, hqy, _⟩
      simp only [List.getD_eq_getElem?_getD]
      by_cases hy : q.y.toNat = p.y.toNat
      · have hyy : q.y = p.y := Int.toNat_injective_of_nonneg hqy hpy hy
        have hx : q.x ≠ p.x := by
          intro hxx; exact h (by cases p; cases q; simp_all)
        have hxN : q.x.toNat ≠ p.x.toNat := by
          intro hc; exact hx (Int.toNat_injective_of_nonneg hqx hpx hc)
        rw [List.getElem?_set, if_pos hy]
        by_cases hlen : q.y.toNat < g.cells.length
        · rw [if_pos hlen]
          simp only [Option.getD_some]
          rw [List.getElem?_set_ne hxN, hy]
        · rw [if_neg hlen]
          have hnone : g.cells[p.y.toNat]? = none := by
            rw [List.getElem?_eq_none]; omega
          rw [hnone]
      · rw [List.getElem?_set_ne hy]

/-- Writing a cell at a valid position makes that cell read back the written
value. -/
theorem Grid.get_cell_set_cell_self (g : Grid) (q : Position) (c : CellType)
    (hq : g.is_valid_position q)
    (hlen : q.y.toNat < g.cells.length)
    (hrow : q.x.toNat < (g.cells.getD q.y.toNat []).length) :
    (g.set_cell q c).get_cell q = c := by
  unfold Grid.set_cell
  rw [if_pos hq]
  show Grid.get_cell ⟨_, g.width, g.height⟩ q = c
  unfold Grid.get_cell
  have hv : Grid.is_valid_position ⟨g.cells.set q.y.toNat
      ((g.cells.getD q.y.toNat []).set q.x.toNat c), g.width, g.height⟩ q
      = g.is_valid_position q := rfl
  rw [hv, if_pos hq]
  show ((g.cells.set q.y.toNat _).getD q.y.toNat []).getD q.x.toNat _ = c
  simp only [List.getD_eq_getElem?_getD] at hrow ⊢
  rw [List.getElem?_set, if_pos rfl, if_pos hlen]
  simp only [Option.getD_some]
  rw [List.getElem?_set, if_pos rfl, if_pos hrow]
  rfl

/-! ## Claim C5: equality of the A* frontier node type -/

/-- **C5 counterexample.**  Two `Node` values with the same position but
different `h_cost` are not equal (equality on `src/node.rs`'s `Node` is the
*derived* structural one), refuting "two nodes are equal iff their positions
are equal" at a concrete input. -/
theorem c5_counterexample :
    (Node.mk ⟨0, 0⟩ 0 0).position = (Node.mk ⟨0, 0⟩ 0 1).position ∧
      Node.mk ⟨0, 0⟩ 0 0 ≠ Node.mk ⟨0, 0⟩ 0 1 := by
  constructor
  · rfl
  · intro h
    exact absurd (congrArg Node.h_cost h) (by decide)

/-- **C5 (amended).**  Equality on the `Node` type used by the A* frontier
(`src/node.rs`, with derived `PartialEq`/`Eq`) is structural: two nodes are
equal iff position, `g_cost` and `h_cost` all agree.  (The position-only
equality described by the spec is implemented only by the legacy duplicated
revisions in `src/main.rs` and `src/app/node.rs`, which the engine in
`src/pathfinding_state.rs` does not use.) -/
theorem c5_node_equality_structural (n₁ n₂ : Node) :
    n₁ = n₂ ↔ n₁.position = n₂.position ∧ n₁.g_cost = n₂.g_cost ∧
      n₁.h_cost = n₂.h_cost := by
  cases n₁; cases n₂; simp [Node.mk.injEq]

/-! ## Claim C7: overlay marking vs Start/Goal cells -/

theorem Grid.mark_visited_preserves (g : Grid) (positions : List Position)
    (sp gp : Option Position) (p : Position)
    (hp : g.get_cell p ≠ CellType.Empty ∧ g.get_cell p ≠ CellType.Frontier) :
    (g.mark_visited positions sp gp).get_cell p = g.get_cell p := by
  induction positions generalizing g with
  | nil => rfl
  | cons pos rest ih =>
    unfold Grid.mark_visited
    split
    case isTrue hcond =>
      have hne : p ≠ pos := by
        rintro rfl
        rcases hcond with ⟨_, _, he⟩ | hf
        · exact hp.1 he
        · exact hp.2 hf
      have hkeep := g.get_cell_set_cell_ne pos CellType.Visited p hne
      rw [ih _ (by rw [hkeep]; exact hp), hkeep]
    case isFalse => exact ih _ hp

theorem Grid.mark_frontier_preserves (g : Grid) (positions : List Position)
    (sp gp : Option Position) (p : Position)
    (hp : g.get_cell p ≠ CellType.Empty) :
    (g.mark_frontier positions sp gp).get_cell p = g.get_cell p := by
  induction positions generalizing g with
  | nil => rfl
  | cons pos rest ih =>
    unfold Grid.mark_frontier
    split
    case isTrue hcond =>
      have hne : p ≠ pos := by
        rintro rfl
        exact hp hcond.2.2
      have hkeep := g.get_cell_set_cell_ne pos CellType.Frontier p hne
      rw [ih _ (by rw [hkeep]; exact hp), hkeep]
    case isFalse => exact ih _ hp

/-- **C7 counterexample.**  On a 1×1 grid whose only cell is classified
`Start`, `mark_current` overwrites it with `Current`, refuting "marking never
overwrites a cell already classified as start or goal". -/
theorem c7_counterexample :
    startCellGrid.get_cell ⟨0, 0⟩ = CellType.Start ∧
      (startCellGrid.mark_current ⟨0, 0⟩).get_cell ⟨0, 0⟩ = CellType.Current := by
  exact ⟨rfl, rfl⟩

/-- **C7 (amended).**  `mark_visited` and `mark_frontier` leave every cell
classified `Start` or `Goal` unchanged (they only ever write cells that
currently read `Empty` or `Frontier`); `mark_current` and
`mark_previous_node_as_visited`, by contrast, write unconditionally and do
overwrite Start/Goal cells (see the counterexample). -/
theorem c7_mark_preserves_start_goal (g : Grid) (positions : List Position)
    (sp gp : Option Position) (p : Position)
    (hp : g.get_cell p = CellType.Start ∨ g.get_cell p = CellType.Goal) :
    (g.mark_visited positions sp gp).get_cell p = g.get_cell p ∧
      (g.mark_frontier positions sp gp).get_cell p = g.get_cell p := by
  constructor
  · exact g.mark_visited_preserves positions sp gp p
      (by rcases hp with h | h <;> rw [h] <;> exact ⟨by decide, by decide⟩)
  · exact g.mark_frontier_preserves positions sp gp p
      (by rcases hp with h | h <;> rw [h] <;> decide)

/-- **C7 witness**: the amended theorem applied to the 1×1 Start-cell grid. -/
theorem c7_witness :
    (startCellGrid.get_cell ⟨0, 0⟩ = CellType.Start ∨
      startCellGrid.get_cell ⟨0, 0⟩ = CellType.Goal) ∧
    (startCellGrid.mark_visited [⟨0, 0⟩] none none).get_cell ⟨0, 0⟩ =
        startCellGrid.get_cell ⟨0, 0⟩ ∧
      (startCellGrid.mark_frontier [⟨0, 0⟩] none none).get_cell ⟨0, 0⟩ =
        startCellGrid.get_cell ⟨0, 0⟩ :=
  ⟨Or.inl rfl,
   c7_mark_preserves_start_goal startCellGrid [⟨0, 0⟩] none none ⟨0, 0⟩ (Or.inl rfl)⟩

/-! ## Claim C8: NoPath exactly on an empty frontier, with no other effect -/

theorem heapPopMax_cons_ne_none (n : Node) (l : List Node) :
    heapPopMax (n :: l) ≠ none := by
  simp only [heapPopMax]
  cases h : heapPopMax l with
  | none => simp
  | some p =>
    cases p with
    | mk m r =>
      split
      all_goals try split
      all_goals simp

theorem heapPopMax_eq_none_iff (l : List Node) : heapPopMax l = none ↔ l = [] := by
  cases l with
  | nil => simp [heapPopMax]
  | cons n rest =>
    constructor
    · intro hc; exact absurd hc (heapPopMax_cons_ne_none n rest)
    · intro hc; cases hc

theorem heapPopMax_cons_exists (n : Node) (l : List Node) :
    ∃ cur rest, heapPopMax (n :: l) = some (cur, rest) := by
  rcases h : heapPopMax (n :: l) with _ | ⟨cur, rest⟩
  · exact absurd ((heapPopMax_eq_none_iff _).mp h) (by simp)
  · exact ⟨cur, rest, rfl⟩

theorem step_astar_ne_nopath (s : PathfindingState) (goal : Position) (grid : Grid)
    (h : s.open_set ≠ []) : (step_astar s goal grid).2.2 ≠ StepResult.NoPath := by
  obtain ⟨n, rest, hl⟩ : ∃ n rest, s.open_set = n :: rest := by
    cases hh : s.open_set with
    | nil => exact absurd hh h
    | cons a b => exact ⟨a, b, rfl⟩
  obtain ⟨cur, rest', hpop⟩ := heapPopMax_cons_exists n rest
  unfold step_astar
  rw [hl, hpop]
  by_cases hg : cur.position = goal <;> simp [hg]

theorem step_bfs_ne_nopath (s : PathfindingState) (goal : Position) (grid : Grid)
    (h : s.bfs_queue ≠ []) : (step_bfs s goal grid).2.2 ≠ StepResult.NoPath := by
  obtain ⟨n, rest, hl⟩ : ∃ n rest, s.bfs_queue = n :: rest := by
    cases hh : s.bfs_queue with
    | nil => exact absurd hh h
    | cons a b => exact ⟨a, b, rfl⟩
  unfold step_bfs
  rw [hl]
  by_cases hg : n = goal <;> simp [hg]

theorem step_dfs_ne_nopath (s : PathfindingState) (goal : Position) (grid : Grid)
    (h : s.dfs_stack ≠ []) : (step_dfs s goal grid).2.2 ≠ StepResult.NoPath := by
  rcases hh : s.dfs_stack.getLast? with _ | n
  · exact absurd (List.getLast?_eq_none_iff.mp hh) h
  · unfold step_dfs
    rw [hh]
    by_cases hg : n = goal <;> simp [hg]

/-- The diagnostic line each algorithm writes when its frontier is empty. -/
def emptyFrontierMsg : Algorithm → String
  | Algorithm.AStar => "Open set empty → no path"
  | Algorithm.Bfs => "Queue empty → no path"
  | Algorithm.Dfs => "Stack empty → no path"

/-- **C8 (confirmed).**  A `step` call returns `NoPath` iff the selected
algorithm's frontier is empty at the time of the call, and in that case the
whole output is the input state with only `last_step_info` replaced by the
diagnostic text, the grid unchanged, and result `NoPath`: `step_count`,
`closed_set`, `came_from`, the cost maps, `current_node`, `previous_node` and
all three frontiers are untouched. -/
theorem c8_nopath_iff_frontier_empty (alg : Algorithm) (s : PathfindingState)
    (goal : Position) (grid : Grid) :
    ((step alg s goal grid).2.2 = StepResult.NoPath ↔ s.frontier_len alg = 0) ∧
    (s.frontier_len alg = 0 →
      step alg s goal grid =
        ({ s with last_step_info := emptyFrontierMsg alg }, grid, StepResult.NoPath)) := by
  cases alg with
  | AStar =>
    cases h : s.open_set with
    | nil => exact ⟨⟨fun _ => by simp [PathfindingState.frontier_len, h],
        fun _ => by simp [step, step_astar, h, heapPopMax, emptyFrontierMsg]⟩,
        fun _ => by simp [step, step_astar, h, heapPopMax, emptyFrontierMsg]⟩
    | cons n rest => exact ⟨⟨fun hn => absurd hn (step_astar_ne_nopath s goal grid (by simp [h])),
        by simp [PathfindingState.frontier_len, h]⟩,
        by simp [PathfindingState.frontier_len, h]⟩
  | Bfs =>
    cases h : s.bfs_queue with
    | nil => exact ⟨⟨fun _ => by simp [PathfindingState.frontier_len, h],
        fun _ => by simp [step, step_bfs, h, emptyFrontierMsg]⟩,
        fun _ => by simp [step, step_bfs, h, emptyFrontierMsg]⟩
    | cons n rest => exact ⟨⟨fun hn => absurd hn (step_bfs_ne_nopath s goal grid (by simp [h])),
        by simp [PathfindingState.frontier_len, h]⟩,
        by simp [PathfindingState.frontier_len, h]⟩
  | Dfs =>
    cases h : s.dfs_stack with
    | nil => exact ⟨⟨fun _ => by simp [PathfindingState.frontier_len, h],
        fun _ => by simp [step, step_dfs, h, emptyFrontierMsg]⟩,
        fun _ => by simp [step, step_dfs, h, emptyFrontierMsg]⟩
    | cons n rest => exact ⟨⟨fun hn => absurd hn (step_dfs_ne_nopath s goal grid (by simp [h])),
        by simp [PathfindingState.frontier_len, h]⟩,
        by simp [PathfindingState.frontier_len, h]⟩

/-! ## Claim C6: the A* admission rule -/

/-- The grid after the marker-aging writes at the start of a step. -/
def markStep (prev : Option Position) (cur : Position) (grid : Grid) : Grid :=
  (match prev with
   | some p => grid.mark_previous_node_as_visited p
   | none => grid).mark_current cur

theorem astarBlocker_eq_none_iff (snapshot : List Node) (n : Position) (t : Int) :
    astarBlocker snapshot n t = none ↔
      ¬ ∃ e ∈ snapshot, e.position = n ∧ e.g_cost ≤ t := by
  simp [astarBlocker, List.find?_eq_none]

theorem astarDecide_fst (snapshot : List Node) (cur_g : Int) (goal : Position)
    (ns : List Position) :
    (astarDecide snapshot cur_g goal ns).1 =
      ns.filterMap (fun n =>
        if (astarBlocker snapshot n (cur_g + 1)).isSome then none
        else some (n, ⟨n, cur_g + 1, n.manhattan_distance_to goal⟩)) := by
  induction ns with
  | nil => rfl
  | cons n rest ih =>
    simp only [astarDecide, List.filterMap_cons]
    cases hb : astarBlocker snapshot n (cur_g + 1) with
    | none => simp [hb, ih]
    | some e => simp [hb, ih]

theorem astarAdd_open (cur : Position) (l : List (Position × Node))
    (s : PathfindingState) (grid : Grid) :
    (astarAdd cur l s grid).1.open_set = s.open_set ++ l.map (fun pn => pn.2) := by
  induction l generalizing s grid with
  | nil => simp [astarAdd]
  | cons pn rest ih => simp [astarAdd, ih]

theorem astarAdd_closed (cur : Position) (l : List (Position × Node))
    (s : PathfindingState) (grid : Grid) :
    (astarAdd cur l s grid).1.closed_set = s.closed_set := by
  induction l generalizing s grid with
  | nil => rfl
  | cons pn rest ih => simp [astarAdd, ih]

theorem astarAdd_came_from (cur : Position) (l : List (Position × Node))
    (s : PathfindingState) (grid : Grid) :
    (astarAdd cur l s grid).1.came_from =
      (l.map (fun pn => (pn.1, cur))).reverse ++ s.came_from := by
  induction l generalizing s grid with
  | nil => rfl
  | cons pn rest ih => simp [astarAdd, ih]

theorem filterMap_if_eq_filter_map {α β : Type} (p : α → Bool) (f : α → β)
    (l : List α) :
    l.filterMap (fun a => if p a then none else some (f a)) =
      (l.filter (fun a => !(p a))).map f := by
  induction l with
  | nil => rfl
  | cons a rest ih =>
    by_cases h : p a <;> simp [h, ih]

/-- **C6 (confirmed).**  In an A* step that pops `cur` (with `cur.position ≠
goal`), the post-step open set is the popped remainder `rest` plus exactly
one new node `(n, cur.g+1, manhattan n goal)` for each walkable, non-closed
candidate neighbor `n` such that *no* entry in the open set (after the pop)
for position `n` has `g_cost ≤ cur.g_cost + 1`; candidates for which some
such entry exists — including ties in g — are not admitted. -/
theorem c6_astar_admission_rule (s : PathfindingState) (goal : Position)
    (grid : Grid) (cur : Node) (rest : List Node)
    (hpop : heapPopMax s.open_set = some (cur, rest))
    (hg : cur.position ≠ goal) :
    (step_astar s goal grid).1.open_set =
      rest ++
        ((((markStep s.previous_node cur.position grid).get_walkable_neighbors
              cur.position).filter
            (fun p => !(p ∈ setInsert s.closed_set cur.position : Bool))).filter
          (fun n => decide (¬ ∃ e ∈ rest,
            e.position = n ∧ e.g_cost ≤ cur.g_cost + 1))).map
        (fun n => ⟨n, cur.g_cost + 1, n.manhattan_distance_to goal⟩) := by
  unfold step_astar
  rw [hpop]
  simp only [if_neg hg]
  rw [astarAdd_open, astarDecide_fst, filterMap_if_eq_filter_map]
  simp only [markStep, List.map_map]
  congr 1
  rw [show ((fun (pn : Position × Node) => pn.2) ∘ fun n =>
      (n, (⟨n, cur.g_cost + 1, n.manhattan_distance_to goal⟩ : Node))) =
      (fun n => (⟨n, cur.g_cost + 1, n.manhattan_distance_to goal⟩ : Node)) from rfl]
  congr 1
  apply List.filter_congr
  intro n _
  rcases hb : astarBlocker rest n (cur.g_cost + 1) with _ | e
  · simp [hb, (astarBlocker_eq_none_iff rest n (cur.g_cost + 1)).mp hb]
  · have hne : astarBlocker rest n (cur.g_cost + 1) ≠ none := by simp [hb]
    have hex : ∃ e ∈ rest, e.position = n ∧ e.g_cost ≤ cur.g_cost + 1 := by
      by_contra hc
      exact hne ((astarBlocker_eq_none_iff rest n (cur.g_cost + 1)).mpr hc)
    simp [hb, hex]

/-- **C6 witness**: the admission rule instantiated on the first A* step of a
2×1 grid (pop of the start node, one admissible neighbor). -/
theorem c6_witness :
    (step_astar (initRun Algorithm.AStar ⟨0, 0⟩ ⟨9, 9⟩) ⟨9, 9⟩ twoCellGrid).1.open_set =
      [] ++
        ((((markStep (initRun Algorithm.AStar ⟨0, 0⟩ ⟨9, 9⟩).previous_node
              (⟨⟨0, 0⟩, 0, 18⟩ : Node).position twoCellGrid).get_walkable_neighbors
              (⟨⟨0, 0⟩, 0, 18⟩ : Node).position).filter
            (fun p => !(p ∈ setInsert (initRun Algorithm.AStar ⟨0, 0⟩ ⟨9, 9⟩).closed_set
              (⟨⟨0, 0⟩, 0, 18⟩ : Node).position : Bool))).filter
          (fun n => decide (¬ ∃ e ∈ ([] : List Node),
            e.position = n ∧ e.g_cost ≤ (⟨⟨0, 0⟩, 0, 18⟩ : Node).g_cost + 1))).map
        (fun n => ⟨n, (⟨⟨0, 0⟩, 0, 18⟩ : Node).g_cost + 1,
          n.manhattan_distance_to ⟨9, 9⟩⟩) :=
  c6_astar_admission_rule (initRun Algorithm.AStar ⟨0, 0⟩ ⟨9, 9⟩) ⟨9, 9⟩ twoCellGrid
    ⟨⟨0, 0⟩, 0, 18⟩ [] (by decide) (by decide)

/-! ## Claim C3: processing of stale frontier entries -/

theorem mem_setInsert (l : List Position) (q p : Position) :
    p ∈ setInsert l q ↔ p ∈ l ∨ p = q := by
  unfold setInsert
  split
  case isTrue h =>
    constructor
    · exact fun hp => Or.inl hp
    · rintro (hp | rfl) <;> [exact hp; exact h]
  case isFalse h => simp

theorem astarAdd_step_count (cur : Position) (l : List (Position × Node))
    (s : PathfindingState) (grid : Grid) :
    (astarAdd cur l s grid).1.step_count = s.step_count := by
  induction l generalizing s grid with
  | nil => rfl
  | cons pn rest ih => simp [astarAdd, ih]

theorem astarAdd_last_neighbors (cur : Position) (l : List (Position × Node))
    (s : PathfindingState) (grid : Grid) :
    (astarAdd cur l s grid).1.last_neighbors = s.last_neighbors := by
  induction l generalizing s grid with
  | nil => rfl
  | cons pn rest ih => simp [astarAdd, ih]

theorem astarDecide_snd_length (snapshot : List Node) (cur_g : Int)
    (goal : Position) (ns : List Position) :
    (astarDecide snapshot cur_g goal ns).2.length = ns.length := by
  induction ns with
  | nil => rfl
  | cons n rest ih =>
    simp only [astarDecide]
    cases hb : astarBlocker snapshot n (cur_g + 1) <;> simp [hb, ih]

set_option maxRecDepth 400000 in
/-- **C3 counterexample.**  In the concrete A* run on `cexGrid` (start
(4,0), goal (4,3)), the 14th step pops a stale duplicate: the frontier's
maximal entry after 13 steps is for a position already in `closed_set`, yet
after that step `last_neighbors` is nonempty — the step *did* enumerate
neighbors rather than skipping the entry. -/
theorem c3_counterexample :
    (runSteps Algorithm.AStar ⟨4, 3⟩ 13
        (initRunState Algorithm.AStar ⟨4, 0⟩ ⟨4, 3⟩ cexGrid)).staleAtFront = true ∧
      (runSteps Algorithm.AStar ⟨4, 3⟩ 14
        (initRunState Algorithm.AStar ⟨4, 0⟩ ⟨4, 3⟩ cexGrid)).s.last_neighbors ≠ [] := by
  constructor
  · decide
  · decide

/-- **C3 (amended).**  `step_astar` never checks whether a popped entry's
position is already closed: a stale pop is processed like any other pop — the
step counter is incremented and one `NeighborInfo` record is produced for
every walkable, non-closed neighbor (so neighbor enumeration does happen).
What does hold is that no already-closed position is ever admitted: every
entry the step appends to the open set is for a position outside the
pre-step `closed_set`. -/
theorem c3_stale_pop_processed (s : PathfindingState) (goal : Position)
    (grid : Grid) (cur : Node) (rest : List Node)
    (hpop : heapPopMax s.open_set = some (cur, rest))
    (hg : cur.position ≠ goal)
    (_hstale : cur.position ∈ s.closed_set) :
    (step_astar s goal grid).1.step_count = s.step_count + 1 ∧
    (step_astar s goal grid).1.last_neighbors.length =
      (((markStep s.previous_node cur.position grid).get_walkable_neighbors
          cur.position).filter
        (fun p => !(p ∈ setInsert s.closed_set cur.position : Bool))).length ∧
    ∀ e ∈ (step_astar s goal grid).1.open_set.drop rest.length,
      e.position ∉ s.closed_set := by
  unfold step_astar
  rw [hpop]
  simp only [if_neg hg]
  refine ⟨?_, ?_, ?_⟩
  · rw [astarAdd_step_count]
  · rw [astarAdd_last_neighbors]
    exact astarDecide_snd_length _ _ _ _
  · intro e he
    rw [astarAdd_open] at he
    simp only [List.drop_left] at he
    rw [astarDecide_fst, filterMap_if_eq_filter_map] at he
    simp only [List.map_map, List.mem_map, List.mem_filter] at he
    obtain ⟨n, ⟨⟨hn_mem, hnotc⟩, _⟩, rfl⟩ := he
    intro hc
    simp only [Bool.not_eq_true', decide_eq_false_iff_not] at hnotc
    exact hnotc ((mem_setInsert _ _ _).mpr (Or.inl hc))

/-- **C3 witness**: the amended theorem at a hand-built state whose only
frontier entry is stale (its position is already closed). -/
theorem c3_witness :
    (step_astar { PathfindingState.default with
        open_set := [⟨⟨0, 0⟩, 5, 0⟩], closed_set := [⟨0, 0⟩] } ⟨9, 9⟩
        twoCellGrid).1.step_count =
      ({ PathfindingState.default with
        open_set := [⟨⟨0, 0⟩, 5, 0⟩], closed_set := [⟨0, 0⟩] } :
          PathfindingState).step_count + 1 ∧
    (step_astar { PathfindingState.default with
        open_set := [⟨⟨0, 0⟩, 5, 0⟩], closed_set := [⟨0, 0⟩] } ⟨9, 9⟩
        twoCellGrid).1.last_neighbors.length =
      (((markStep ({ PathfindingState.default with
            open_set := [⟨⟨0, 0⟩, 5, 0⟩], closed_set := [⟨0, 0⟩] } :
              PathfindingState).previous_node
          (⟨⟨0, 0⟩, 5, 0⟩ : Node).position twoCellGrid).get_walkable_neighbors
          (⟨⟨0, 0⟩, 5, 0⟩ : Node).position).filter
        (fun p => !(p ∈ setInsert ({ PathfindingState.default with
            open_set := [⟨⟨0, 0⟩, 5, 0⟩], closed_set := [⟨0, 0⟩] } :
              PathfindingState).closed_set
          (⟨⟨0, 0⟩, 5, 0⟩ : Node).position : Bool))).length ∧
    ∀ e ∈ (step_astar { PathfindingState.default with
        open_set := [⟨⟨0, 0⟩, 5, 0⟩], closed_set := [⟨0, 0⟩] } ⟨9, 9⟩
        twoCellGrid).1.open_set.drop ([] : List Node).length,
      e.position ∉ ({ PathfindingState.default with
        open_set := [⟨⟨0, 0⟩, 5, 0⟩], closed_set := [⟨0, 0⟩] } :
          PathfindingState).closed_set :=
  c3_stale_pop_processed _ ⟨9, 9⟩ twoCellGrid ⟨⟨0, 0⟩, 5, 0⟩ []
    (by decide) (by decide) (by decide)

/-! ## Claim C2: at-most-once `came_from` assignment -/

theorem runSteps_add (alg : Algorithm) (goal : Position) (a b : Nat) (r : RunState) :
    runSteps alg goal (a + b) r = runSteps alg goal b (runSteps alg goal a r) := by
  induction a generalizing r with
  | zero => rw [Nat.zero_add]; rfl
  | succ a ih =>
    rw [Nat.succ_add]
    show runSteps alg goal (a + b) (runStep1 alg goal r) = _
    rw [ih]
    rfl

theorem bfsLoop_came_from_preserves (c : Position) (g : Int) (ns : List Position)
    (s : PathfindingState) (grid : Grid) (p q : Position)
    (h : alookup s.came_from p = some q) :
    alookup (bfsLoop c g ns s grid).1.came_from p = some q := by
  induction ns generalizing s grid with
  | nil => exact h
  | cons n rest ih =>
    unfold bfsLoop
    split
    case isTrue => exact ih _ _ h
    case isFalse hskip =>
      apply ih
      show alookup ((n, c) :: s.came_from) p = some q
      unfold alookup
      split
      case isTrue heq =>
        exfalso
        push_neg at hskip
        have hnone : alookup s.came_from n = none := by
          cases hl : alookup s.came_from n with
          | none => rfl
          | some v => exact absurd (by simp [hl]) hskip.2
        rw [heq] at hnone
        rw [h] at hnone
        cases hnone
      case isFalse => exact h

theorem dfsLoop_came_from_preserves (c : Position) (g : Int) (ns : List Position)
    (s : PathfindingState) (grid : Grid) (p q : Position)
    (h : alookup s.came_from p = some q) :
    alookup (dfsLoop c g ns s grid).1.came_from p = some q := by
  induction ns generalizing s grid with
  | nil => exact h
  | cons n rest ih =>
    unfold dfsLoop
    split
    case isTrue => exact ih _ _ h
    case isFalse hskip =>
      apply ih
      show alookup ((n, c) :: s.came_from) p = some q
      unfold alookup
      split
      case isTrue heq =>
        exfalso
        push_neg at hskip
        have hnone : alookup s.came_from n = none := by
          cases hl : alookup s.came_from n with
          | none => rfl
          | some v => exact absurd (by simp [hl]) hskip.2
        rw [heq] at hnone
        rw [h] at hnone
        cases hnone
      case isFalse => exact h

theorem step_bfs_came_from_preserves (s : PathfindingState) (goal : Position)
    (grid : Grid) (p q : Position) (h : alookup s.came_from p = some q) :
    alookup (step_bfs s goal grid).1.came_from p = some q := by
  unfold step_bfs
  cases hq : s.bfs_queue with
  | nil => exact h
  | cons c rest =>
    simp only
    split
    case isTrue => exact h
    case isFalse => exact bfsLoop_came_from_preserves _ _ _ _ _ _ _ h

theorem step_dfs_came_from_preserves (s : PathfindingState) (goal : Position)
    (grid : Grid) (p q : Position) (h : alookup s.came_from p = some q) :
    alookup (step_dfs s goal grid).1.came_from p = some q := by
  unfold step_dfs
  cases hq : s.dfs_stack.getLast? with
  | none => exact h
  | some c =>
    simp only
    split
    case isTrue => exact h
    case isFalse => exact dfsLoop_came_from_preserves _ _ _ _ _ _ _ h

theorem runStep1_came_from_preserves (alg : Algorithm)
    (halg : alg = Algorithm.Bfs ∨ alg = Algorithm.Dfs) (goal : Position)
    (r : RunState) (p q : Position) (h : r.cameFromAt p = some q) :
    (runStep1 alg goal r).cameFromAt p = some q := by
  unfold runStep1
  cases hst : r.status with
  | running =>
    have hstep : alookup (step alg r.s goal r.grid).1.came_from p = some q := by
      rcases halg with rfl | rfl
      · exact step_bfs_came_from_preserves _ _ _ _ _ h
      · exact step_dfs_came_from_preserves _ _ _ _ _ h
    rcases hout : step alg r.s goal r.grid with ⟨s', grid', res⟩
    rw [hout] at hstep
    cases res <;> exact hstep
  | foundPath path => exact h
  | noPath => exact h

theorem runSteps_came_from_preserves (alg : Algorithm)
    (halg : alg = Algorithm.Bfs ∨ alg = Algorithm.Dfs) (goal : Position)
    (k : Nat) (r : RunState) (p q : Position) (h : r.cameFromAt p = some q) :
    (runSteps alg goal k r).cameFromAt p = some q := by
  induction k generalizing r with
  | zero => exact h
  | succ k ih => exact ih _ (runStep1_came_from_preserves alg halg goal r p q h)

set_option maxRecDepth 400000 in
/-- **C2 counterexample.**  In the concrete A* run on `cexGrid` (start
(4,0), goal (4,3)), position (1,1) first receives `came_from` parent (1,2)
(after 10 steps) and is later re-admitted with a strictly lower tentative g,
which *reassigns* its `came_from` parent to (1,0) (after 11 steps) — so the
at-most-once property fails for A*. -/
theorem c2_counterexample :
    (runSteps Algorithm.AStar ⟨4, 3⟩ 10
        (initRunState Algorithm.AStar ⟨4, 0⟩ ⟨4, 3⟩ cexGrid)).cameFromAt ⟨1, 1⟩ =
      some ⟨1, 2⟩ ∧
    (runSteps Algorithm.AStar ⟨4, 3⟩ 11
        (initRunState Algorithm.AStar ⟨4, 0⟩ ⟨4, 3⟩ cexGrid)).cameFromAt ⟨1, 1⟩ =
      some ⟨1, 0⟩ ∧
    (⟨1, 2⟩ : Position) ≠ ⟨1, 0⟩ := by
  refine ⟨by decide, by decide, by decide⟩

/-- **C2 (amended).**  For BFS and DFS runs the claim holds: once
`came_from` maps `p` to some parent `q`, every later point of the run still
maps `p` to `q` (first discovery wins; the admission guard
`came_from.contains_key` prevents any reassignment).  For A* it fails:
re-admission with a strictly lower tentative g overwrites the parent (see
the counterexample). -/
theorem c2_first_assignment_persists_bfs_dfs (alg : Algorithm)
    (halg : alg = Algorithm.Bfs ∨ alg = Algorithm.Dfs) (goal : Position)
    (r : RunState) (k k' : Nat) (hk : k ≤ k') (p q : Position)
    (h : (runSteps alg goal k r).cameFromAt p = some q) :
    (runSteps alg goal k' r).cameFromAt p = some q := by
  obtain ⟨j, rfl⟩ := Nat.exists_eq_add_of_le hk
  rw [runSteps_add]
  exact runSteps_came_from_preserves alg halg goal j _ p q h

/-- **C2 witness**: on the 2×1 grid, the BFS run assigns parent (0,0) to
(1,0) at step 1 and it persists at step 2. -/
theorem c2_witness :
    (runSteps Algorithm.Bfs ⟨9, 9⟩ 2
        (initRunState Algorithm.Bfs ⟨0, 0⟩ ⟨9, 9⟩ twoCellGrid)).cameFromAt ⟨1, 0⟩ =
      some ⟨0, 0⟩ :=
  c2_first_assignment_persists_bfs_dfs Algorithm.Bfs (Or.inl rfl) ⟨9, 9⟩
    (initRunState Algorithm.Bfs ⟨0, 0⟩ ⟨9, 9⟩ twoCellGrid) 1 2 (by decide)
    ⟨1, 0⟩ ⟨0, 0⟩ (by decide)

/-- **C8 witness**: the theorem instantiated at the default (empty) state on
the 1×1 grid with the BFS algorithm. -/
theorem c8_witness :
    ((step Algorithm.Bfs PathfindingState.default ⟨0, 0⟩ oneCellGrid).2.2 =
        StepResult.NoPath ↔
      PathfindingState.default.frontier_len Algorithm.Bfs = 0) ∧
    (PathfindingState.default.frontier_len Algorithm.Bfs = 0 →
      step Algorithm.Bfs PathfindingState.default ⟨0, 0⟩ oneCellGrid =
        ({ PathfindingState.default with
            last_step_info := emptyFrontierMsg Algorithm.Bfs },
          oneCellGrid, StepResult.NoPath)) :=
  c8_nopath_iff_frontier_empty Algorithm.Bfs PathfindingState.default ⟨0, 0⟩
    oneCellGrid

/-! ## Walkability stability: the overlay marks never change the walkability
graph (obstacles are never written, and only walkable or guarded cells are
marked), so neighbor queries mid-run agree with the initial grid. -/

theorem alookup_cons {β : Type} (k : Position) (v : β)
    (t : List (Position × β)) (p : Position) :
    alookup ((k, v) :: t) p = if k = p then some v else alookup t p := rfl

theorem alookup_cons_isSome {β : Type} (k : Position) (v : β)
    (t : List (Position × β)) (p : Position)
    (h : (alookup t p).isSome = true) :
    (alookup ((k, v) :: t) p).isSome = true := by
  rw [alookup_cons]
  split <;> simp_all

theorem setInsert_nodup (l : List Position) (p : Position) (h : l.Nodup) :
    (setInsert l p).Nodup := by
  unfold setInsert
  split
  case isTrue => exact h
  case isFalse hmem =>
    rw [List.nodup_append]
    exact ⟨h, List.nodup_singleton p, by
      intro a ha hap
      rw [List.mem_singleton] at hap
      subst hap
      exact hmem ha⟩

theorem setInsert_length_of_not_mem (l : List Position) (p : Position)
    (h : p ∉ l) : (setInsert l p).length = l.length + 1 := by
  unfold setInsert
  rw [if_neg h]
  simp

/-- A non-obstacle reading implies the indices are genuinely in range of the
`cells` lists (out-of-range reads default to `Obstacle`). -/
theorem Grid.bounds_of_get_cell_ne_obstacle (g : Grid) (q : Position)
    (hq : g.get_cell q ≠ CellType.Obstacle) :
    g.is_valid_position q = true ∧ q.y.toNat < g.cells.length ∧
      q.x.toNat < (g.cells.getD q.y.toNat []).length := by
  unfold Grid.get_cell at hq
  by_cases hv : g.is_valid_position q
  · refine ⟨hv, ?_, ?_⟩
    · rw [if_pos hv] at hq
      by_contra hlen
      have : g.cells.getD q.y.toNat [] = [] := by
        rw [List.getD_eq_getElem?_getD, List.getElem?_eq_none (by omega)]
        rfl
      rw [this] at hq
      exact hq rfl
    · rw [if_pos hv] at hq
      by_contra hrow
      have : (g.cells.getD q.y.toNat []).getD q.x.toNat CellType.Obstacle
          = CellType.Obstacle := by
        rw [List.getD_eq_getElem?_getD, List.getElem?_eq_none (by omega)]
        rfl
      exact hq this
  · rw [if_neg hv] at hq
    exact absurd rfl hq

/-- Writing a non-obstacle value over a non-obstacle cell preserves
walkability everywhere. -/
theorem Grid.walk_set_cell (g : Grid) (q : Position) (c : CellType)
    (hc : c ≠ CellType.Obstacle) (hq : g.get_cell q ≠ CellType.Obstacle)
    (p : Position) : (g.set_cell q c).is_walkable p = g.is_walkable p := by
  by_cases hpq : p = q
  · subst hpq
    obtain ⟨hv, hlen, hrow⟩ := g.bounds_of_get_cell_ne_obstacle p hq
    unfold Grid.is_walkable
    rw [Grid.set_cell_valid, g.get_cell_set_cell_self p c hv hlen hrow]
    simp only [hv, Bool.true_and]
    rw [show (c == CellType.Obstacle) = false by
        cases c <;> simp_all, show (g.get_cell p == CellType.Obstacle) = false by
        simp [beq_eq_false_iff_ne]; exact hq]
  · unfold Grid.is_walkable
    rw [Grid.set_cell_valid, g.get_cell_set_cell_ne q c p hpq]

/-- A genuinely walkable cell stays readable as non-obstacle, so marking it
`Current`, `Visited`, `Frontier` or `Path` preserves walkability. -/
theorem Grid.walk_set_cell_of_walkable (g : Grid) (q : Position) (c : CellType)
    (hc : c ≠ CellType.Obstacle) (hq : g.is_walkable q = true)
    (p : Position) : (g.set_cell q c).is_walkable p = g.is_walkable p := by
  apply g.walk_set_cell q c hc
  unfold Grid.is_walkable at hq
  simp only [Bool.and_eq_true, Bool.not_eq_true', beq_eq_false_iff_ne] at hq
  exact hq.2

theorem Grid.walk_mark_frontier (g : Grid) (positions : List Position)
    (sp gp : Option Position) (p : Position) :
    (g.mark_frontier positions sp gp).is_walkable p = g.is_walkable p := by
  induction positions generalizing g with
  | nil => rfl
  | cons pos rest ih =>
    unfold Grid.mark_frontier
    split
    case isTrue hcond =>
      rw [ih]
      exact g.walk_set_cell pos CellType.Frontier (by decide)
        (by rw [hcond.2.2]; decide) p
    case isFalse => exact ih g

theorem Grid.walk_mark_visited (g : Grid) (positions : List Position)
    (sp gp : Option Position) (p : Position) :
    (g.mark_visited positions sp gp).is_walkable p = g.is_walkable p := by
  induction positions generalizing g with
  | nil => rfl
  | cons pos rest ih =>
    unfold Grid.mark_visited
    split
    case isTrue hcond =>
      rw [ih]
      refine g.walk_set_cell pos CellType.Visited (by decide) ?_ p
      rcases hcond with ⟨_, _, he⟩ | hf
      · rw [he]; decide
      · rw [hf]; decide
    case isFalse => exact ih g

theorem Grid.walk_mark_current (g : Grid) (q : Position)
    (hq : g.is_walkable q = true) (p : Position) :
    (g.mark_current q).is_walkable p = g.is_walkable p :=
  g.walk_set_cell_of_walkable q CellType.Current (by decide) hq p

theorem Grid.walk_mark_previous (g : Grid) (q : Position)
    (hq : g.is_walkable q = true) (p : Position) :
    (g.mark_previous_node_as_visited q).is_walkable p = g.is_walkable p :=
  g.walk_set_cell_of_walkable q CellType.Visited (by decide) hq p

/-- Membership in the walkable-cell enumeration is exactly walkability. -/
theorem Grid.mem_walkableCells (g : Grid) (p : Position) :
    p ∈ g.walkableCells ↔ g.is_walkable p = true := by
  unfold Grid.walkableCells
  constructor
  · intro hmem
    obtain ⟨y, _, hin⟩ := List.mem_flatMap.mp hmem
    obtain ⟨x, _, heq⟩ := List.mem_filterMap.mp hin
    by_cases hw : g.is_walkable ⟨(x : Int), (y : Int)⟩
    · rw [if_pos hw] at heq
      cases heq
      exact hw
    · rw [if_neg hw] at heq
      cases heq
  · intro hw
    have hv : g.is_valid_position p = true := by
      unfold Grid.is_walkable at hw
      simp only [Bool.and_eq_true] at hw
      exact hw.1
    rcases (g.valid_iff p).mp hv with ⟨hx0, hxw, hy0, hyh⟩
    have hp : (⟨(p.x.toNat : Int), (p.y.toNat : Int)⟩ : Position) = p := by
      cases p with
      | mk x y =>
        simp only [Position.mk.injEq]
        constructor <;> [exact Int.toNat_of_nonneg hx0; exact Int.toNat_of_nonneg hy0]
    apply List.mem_flatMap.mpr
    refine ⟨p.y.toNat, List.mem_range.mpr ?_, ?_⟩
    · have hyy : (p.y.toNat : Int) < (g.height : Int) := by
        rw [Int.toNat_of_nonneg hy0]; exact hyh
      exact_mod_cast hyy
    · apply List.mem_filterMap.mpr
      refine ⟨p.x.toNat, List.mem_range.mpr ?_, ?_⟩
      · have hxx : (p.x.toNat : Int) < (g.width : Int) := by
          rw [Int.toNat_of_nonneg hx0]; exact hxw
        exact_mod_cast hxx
      · show (if g.is_walkable ⟨(p.x.toNat : Int), (p.y.toNat : Int)⟩ = true
            then some (⟨(p.x.toNat : Int), (p.y.toNat : Int)⟩ : Position)
            else none) = some p
        rw [hp, if_pos hw]

/-- A duplicate-free list of walkable positions has at most `walkableCount`
elements. -/
theorem Grid.length_le_walkableCount (g : Grid) (l : List Position)
    (hnd : l.Nodup) (hw : ∀ p ∈ l, g.is_walkable p = true) :
    l.length ≤ g.walkableCount := by
  have hsub : l.toFinset ⊆ g.walkableCells.toFinset := by
    intro p hp
    rw [List.mem_toFinset] at hp ⊢
    exact (g.mem_walkableCells p).mpr (hw p hp)
  calc l.length = l.toFinset.card := (List.toFinset_card_of_nodup hnd).symm
    _ ≤ g.walkableCells.toFinset.card := Finset.card_le_card hsub
    _ ≤ g.walkableCells.length := g.walkableCells.toFinset_card_le
    _ = g.walkableCount := rfl

/-! ## Claim C4: termination bounds -/

theorem Grid.walkable_of_mem_neighbors (g : Grid) (p n : Position)
    (h : n ∈ g.get_walkable_neighbors p) : g.is_walkable n = true := by
  unfold Grid.get_walkable_neighbors at h
  exact (List.mem_filter.mp h).2

theorem runSteps_succ_right (alg : Algorithm) (goal : Position) (k : Nat)
    (r : RunState) :
    runSteps alg goal (k + 1) r = runStep1 alg goal (runSteps alg goal k r) := by
  rw [runSteps_add alg goal k 1 r]
  rfl

theorem runStep1_of_terminal (alg : Algorithm) (goal : Position) (r : RunState)
    (h : r.status ≠ RunStatus.running) : runStep1 alg goal r = r := by
  unfold runStep1
  cases hs : r.status with
  | running => exact absurd hs h
  | foundPath path => rfl
  | noPath => rfl

/-- Loop invariant transfer for the BFS neighbor loop: preserves the queue
discipline facts needed for the termination bound. -/
theorem bfsLoop_inv (c : Position) (gval : Int) (ns : List Position)
    (s : PathfindingState) (grid : Grid) (g0 : Grid)
    (hns : ∀ n ∈ ns, g0.is_walkable n = true)
    (hgrid : ∀ p, grid.is_walkable p = g0.is_walkable p)
    (hq_nodup : s.bfs_queue.Nodup)
    (hq_cl : ∀ p ∈ s.bfs_queue, p ∉ s.closed_set)
    (hq_walk : ∀ p ∈ s.bfs_queue, g0.is_walkable p = true)
    (hq_key : ∀ p ∈ s.bfs_queue, (alookup s.came_from p).isSome = true) :
    (bfsLoop c gval ns s grid).1.closed_set = s.closed_set ∧
    (bfsLoop c gval ns s grid).1.previous_node = s.previous_node ∧
    (∀ p, (bfsLoop c gval ns s grid).2.is_walkable p = g0.is_walkable p) ∧
    (bfsLoop c gval ns s grid).1.bfs_queue.Nodup ∧
    (∀ p ∈ (bfsLoop c gval ns s grid).1.bfs_queue,
      p ∉ (bfsLoop c gval ns s grid).1.closed_set) ∧
    (∀ p ∈ (bfsLoop c gval ns s grid).1.bfs_queue, g0.is_walkable p = true) ∧
    (∀ p ∈ (bfsLoop c gval ns s grid).1.bfs_queue,
      (alookup (bfsLoop c gval ns s grid).1.came_from p).isSome = true) := by
  induction ns generalizing s grid with
  | nil => exact ⟨rfl, rfl, hgrid, hq_nodup, hq_cl, hq_walk, hq_key⟩
  | cons n rest ih =>
    unfold bfsLoop
    split
    case isTrue hseen =>
      exact ih _ _ (fun m hm => hns m (List.mem_cons_of_mem n hm)) hgrid
        hq_nodup hq_cl hq_walk hq_key
    case isFalse hfresh =>
      push_neg at hfresh
      have hnofresh : alookup s.came_from n = none := by
        cases hl : alookup s.came_from n with
        | none => rfl
        | some v => exact absurd (by simp [hl]) hfresh.2
      have hnq : n ∉ s.bfs_queue := by
        intro hc
        have := hq_key n hc
        rw [hnofresh] at this
        cases this
      apply ih
      · exact fun m hm => hns m (List.mem_cons_of_mem n hm)
      · intro p
        rw [Grid.walk_mark_frontier]
        exact hgrid p
      · show (s.bfs_queue ++ [n]).Nodup
        rw [List.nodup_append]
        exact ⟨hq_nodup, List.nodup_singleton n, by
          intro a ha hap
          rw [List.mem_singleton] at hap
          subst hap
          exact hnq ha⟩
      · show ∀ p ∈ s.bfs_queue ++ [n], p ∉ s.closed_set
        intro p hp
        rcases List.mem_append.mp hp with h | h
        · exact hq_cl p h
        · rw [List.mem_singleton] at h
          subst h
          exact hfresh.1
      · show ∀ p ∈ s.bfs_queue ++ [n], g0.is_walkable p = true
        intro p hp
        rcases List.mem_append.mp hp with h | h
        · exact hq_walk p h
        · rw [List.mem_singleton] at h
          rw [h]
          exact hns _ (List.mem_cons_self _ _)
      · show ∀ p ∈ s.bfs_queue ++ [n],
          (alookup ((n, c) :: s.came_from) p).isSome = true
        intro p hp
        rcases List.mem_append.mp hp with h | h
        · exact alookup_cons_isSome n c s.came_from p (hq_key p h)
        · rw [List.mem_singleton] at h
          subst h
          rw [alookup_cons, if_pos rfl]
          rfl

/-- Loop invariant transfer for the DFS neighbor loop (same facts, stack
discipline). -/
theorem dfsLoop_inv (c : Position) (gval : Int) (ns : List Position)
    (s : PathfindingState) (grid : Grid) (g0 : Grid)
    (hns : ∀ n ∈ ns, g0.is_walkable n = true)
    (hgrid : ∀ p, grid.is_walkable p = g0.is_walkable p)
    (hq_nodup : s.dfs_stack.Nodup)
    (hq_cl : ∀ p ∈ s.dfs_stack, p ∉ s.closed_set)
    (hq_walk : ∀ p ∈ s.dfs_stack, g0.is_walkable p = true)
    (hq_key : ∀ p ∈ s.dfs_stack, (alookup s.came_from p).isSome = true) :
    (dfsLoop c gval ns s grid).1.closed_set = s.closed_set ∧
    (dfsLoop c gval ns s grid).1.previous_node = s.previous_node ∧
    (∀ p, (dfsLoop c gval ns s grid).2.is_walkable p = g0.is_walkable p) ∧
    (dfsLoop c gval ns s grid).1.dfs_stack.Nodup ∧
    (∀ p ∈ (dfsLoop c gval ns s grid).1.dfs_stack,
      p ∉ (dfsLoop c gval ns s grid).1.closed_set) ∧
    (∀ p ∈ (dfsLoop c gval ns s grid).1.dfs_stack, g0.is_walkable p = true) ∧
    (∀ p ∈ (dfsLoop c gval ns s grid).1.dfs_stack,
      (alookup (dfsLoop c gval ns s grid).1.came_from p).isSome = true) := by
  induction ns generalizing s grid with
  | nil => exact ⟨rfl, rfl, hgrid, hq_nodup, hq_cl, hq_walk, hq_key⟩
  | cons n rest ih =>
    unfold dfsLoop
    split
    case isTrue hseen =>
      exact ih _ _ (fun m hm => hns m (List.mem_cons_of_mem n hm)) hgrid
        hq_nodup hq_cl hq_walk hq_key
    case isFalse hfresh =>
      push_neg at hfresh
      have hnofresh : alookup s.came_from n = none := by
        cases hl : alookup s.came_from n with
        | none => rfl
        | some v => exact absurd (by simp [hl]) hfresh.2
      have hnq : n ∉ s.dfs_stack := by
        intro hc
        have := hq_key n hc
        rw [hnofresh] at this
        cases this
      apply ih
      · exact fun m hm => hns m (List.mem_cons_of_mem n hm)
      · intro p
        rw [Grid.walk_mark_frontier]
        exact hgrid p
      · show (s.dfs_stack ++ [n]).Nodup
        rw [List.nodup_append]
        exact ⟨hq_nodup, List.nodup_singleton n, by
          intro a ha hap
          rw [List.mem_singleton] at hap
          subst hap
          exact hnq ha⟩
      · show ∀ p ∈ s.dfs_stack ++ [n], p ∉ s.closed_set
        intro p hp
        rcases List.mem_append.mp hp with h | h
        · exact hq_cl p h
        · rw [List.mem_singleton] at h
          subst h
          exact hfresh.1
      · show ∀ p ∈ s.dfs_stack ++ [n], g0.is_walkable p = true
        intro p hp
        rcases List.mem_append.mp hp with h | h
        · exact hq_walk p h
        · rw [List.mem_singleton] at h
          rw [h]
          exact hns _ (List.mem_cons_self _ _)
      · show ∀ p ∈ s.dfs_stack ++ [n],
          (alookup ((n, c) :: s.came_from) p).isSome = true
        intro p hp
        rcases List.mem_append.mp hp with h | h
        · exact alookup_cons_isSome n c s.came_from p (hq_key p h)
        · rw [List.mem_singleton] at h
          subst h
          rw [alookup_cons, if_pos rfl]
          rfl

/-- The queue/closed discipline a BFS run maintains, measured against the
walkability graph of the initial grid `g0`. -/
structure BfsTermInv (g0 : Grid) (r : RunState) : Prop where
  grid_walk : ∀ p, r.grid.is_walkable p = g0.is_walkable p
  q_nodup : r.s.bfs_queue.Nodup
  q_closed : ∀ p ∈ r.s.bfs_queue, p ∉ r.s.closed_set
  q_walk : ∀ p ∈ r.s.bfs_queue, g0.is_walkable p = true
  c_walk : ∀ p ∈ r.s.closed_set, g0.is_walkable p = true
  c_nodup : r.s.closed_set.Nodup
  prev_walk : ∀ p, r.s.previous_node = some p → g0.is_walkable p = true
  q_key : (∀ p ∈ r.s.bfs_queue, (alookup r.s.came_from p).isSome = true) ∨
          (r.s.came_from = [] ∧ r.s.bfs_queue.length ≤ 1)

/-- The stack/closed discipline a DFS run maintains. -/
structure DfsTermInv (g0 : Grid) (r : RunState) : Prop where
  grid_walk : ∀ p, r.grid.is_walkable p = g0.is_walkable p
  q_nodup : r.s.dfs_stack.Nodup
  q_closed : ∀ p ∈ r.s.dfs_stack, p ∉ r.s.closed_set
  q_walk : ∀ p ∈ r.s.dfs_stack, g0.is_walkable p = true
  c_walk : ∀ p ∈ r.s.closed_set, g0.is_walkable p = true
  c_nodup : r.s.closed_set.Nodup
  prev_walk : ∀ p, r.s.previous_node = some p → g0.is_walkable p = true
  q_key : (∀ p ∈ r.s.dfs_stack, (alookup r.s.came_from p).isSome = true) ∨
          (r.s.came_from = [] ∧ r.s.dfs_stack.length ≤ 1)

theorem runStep1_running_eq (alg : Algorithm) (goal : Position) (r : RunState)
    (h : r.status = RunStatus.running) :
    runStep1 alg goal r =
      (match step alg r.s goal r.grid with
       | (s', grid', StepResult.Continue) => ⟨s', grid', RunStatus.running⟩
       | (s', grid', StepResult.PathFound p) => ⟨s', grid', RunStatus.foundPath p⟩
       | (s', grid', StepResult.NoPath) => ⟨s', grid', RunStatus.noPath⟩) := by
  unfold runStep1
  rw [h]

/-- The state right after the pop bookkeeping of `step_bfs` (fields written
before the goal check), for `bfs_queue = c :: rest`. -/
def bfsPopState (s : PathfindingState) (c : Position) (rest : List Position) :
    PathfindingState :=
  { s with
    bfs_queue := rest,
    current_node := some c,
    closed_set := setInsert s.closed_set c,
    step_count := s.step_count + 1,
    previous_node := some c,
    last_step_info := "Step " ++ toString (s.step_count + 1) ++ ": pop (" ++
      toString c.x ++ ", " ++ toString c.y ++ ") at distance g=" ++
      toString ((alookup s.g_costs c).getD 0) ++ " (queue=" ++
      toString rest.length ++ ", closed=" ++
      toString (setInsert s.closed_set c).length ++ ")",
    last_neighbors := [] }

/-- `step_bfs` on a nonempty queue whose head is not the goal: pop
bookkeeping, marker aging, neighbor loop, visited repaint, `Continue`. -/
theorem step_bfs_cons_continue (s : PathfindingState) (goal : Position)
    (grid : Grid) (c : Position) (rest : List Position)
    (hq : s.bfs_queue = c :: rest) (hg : ¬ c = goal) :
    step_bfs s goal grid =
      ((bfsLoop c ((alookup s.g_costs c).getD 0)
          ((markStep s.previous_node c grid).get_walkable_neighbors c)
          (bfsPopState s c rest) (markStep s.previous_node c grid)).1,
       ((bfsLoop c ((alookup s.g_costs c).getD 0)
          ((markStep s.previous_node c grid).get_walkable_neighbors c)
          (bfsPopState s c rest) (markStep s.previous_node c grid)).2).mark_visited
         ((bfsLoop c ((alookup s.g_costs c).getD 0)
          ((markStep s.previous_node c grid).get_walkable_neighbors c)
          (bfsPopState s c rest) (markStep s.previous_node c grid)).1).closed_set
         none none,
       StepResult.Continue) := by
  unfold step_bfs
  rw [hq]
  dsimp only [markStep, bfsPopState]
  rw [if_neg hg]

/-- `step_bfs` on a nonempty queue whose head is the goal: pop bookkeeping,
marker aging, then immediate path reconstruction. -/
theorem step_bfs_cons_found (s : PathfindingState) (goal : Position)
    (grid : Grid) (c : Position) (rest : List Position)
    (hq : s.bfs_queue = c :: rest) (hg : c = goal) :
    step_bfs s goal grid =
      (bfsPopState s c rest, markStep s.previous_node c grid,
       StepResult.PathFound (reconstruct_path s.came_from c)) := by
  unfold step_bfs
  rw [hq]
  dsimp only [markStep, bfsPopState]
  rw [if_pos hg]

/-- The state right after the pop bookkeeping of `step_dfs`, for
`dfs_stack.getLast? = some c`. -/
def dfsPopState (s : PathfindingState) (c : Position) : PathfindingState :=
  { s with
    dfs_stack := s.dfs_stack.dropLast,
    current_node := some c,
    closed_set := setInsert s.closed_set c,
    step_count := s.step_count + 1,
    previous_node := some c,
    last_step_info := "Step " ++ toString (s.step_count + 1) ++ ": pop (" ++
      toString c.x ++ ", " ++ toString c.y ++ ") depth g=" ++
      toString ((alookup s.g_costs c).getD 0) ++ " (stack=" ++
      toString s.dfs_stack.dropLast.length ++ ", closed=" ++
      toString (setInsert s.closed_set c).length ++ ")",
    last_neighbors := [] }

/-- `step_dfs` on a nonempty stack whose top is not the goal. -/
theorem step_dfs_cons_continue (s : PathfindingState) (goal : Position)
    (grid : Grid) (c : Position)
    (hq : s.dfs_stack.getLast? = some c) (hg : ¬ c = goal) :
    step_dfs s goal grid =
      ((dfsLoop c ((alookup s.g_costs c).getD 0)
          ((markStep s.previous_node c grid).get_walkable_neighbors c).reverse
          (dfsPopState s c) (markStep s.previous_node c grid)).1,
       ((dfsLoop c ((alookup s.g_costs c).getD 0)
          ((markStep s.previous_node c grid).get_walkable_neighbors c).reverse
          (dfsPopState s c) (markStep s.previous_node c grid)).2).mark_visited
         ((dfsLoop c ((alookup s.g_costs c).getD 0)
          ((markStep s.previous_node c grid).get_walkable_neighbors c).reverse
          (dfsPopState s c) (markStep s.previous_node c grid)).1).closed_set
         none none,
       StepResult.Continue) := by
  unfold step_dfs
  rw [hq]
  dsimp only [markStep, dfsPopState]
  rw [if_neg hg]

/-- `step_dfs` on a nonempty stack whose top is the goal. -/
theorem step_dfs_cons_found (s : PathfindingState) (goal : Position)
    (grid : Grid) (c : Position)
    (hq : s.dfs_stack.getLast? = some c) (hg : c = goal) :
    step_dfs s goal grid =
      (dfsPopState s c, markStep s.previous_node c grid,
       StepResult.PathFound (reconstruct_path s.came_from c)) := by
  unfold step_dfs
  rw [hq]
  dsimp only [markStep, dfsPopState]
  rw [if_pos hg]

theorem step_bfs_nil (s : PathfindingState) (goal : Position) (grid : Grid)
    (hq : s.bfs_queue = []) :
    step_bfs s goal grid =
      ({ s with last_step_info := "Queue empty → no path" }, grid,
        StepResult.NoPath) := by
  unfold step_bfs
  rw [hq]

theorem step_dfs_nil (s : PathfindingState) (goal : Position) (grid : Grid)
    (hq : s.dfs_stack.getLast? = none) :
    step_dfs s goal grid =
      ({ s with last_step_info := "Stack empty → no path" }, grid,
        StepResult.NoPath) := by
  unfold step_dfs
  rw [hq]

theorem bfs_step_term_inv (g0 : Grid) (goal : Position) (r : RunState)
    (hinv : BfsTermInv g0 r) (hrun : r.status = RunStatus.running)
    (hrun' : (runStep1 Algorithm.Bfs goal r).status = RunStatus.running) :
    BfsTermInv g0 (runStep1 Algorithm.Bfs goal r) ∧
      (runStep1 Algorithm.Bfs goal r).s.closed_set.length =
        r.s.closed_set.length + 1 := by
  rw [runStep1_running_eq Algorithm.Bfs goal r hrun] at hrun' ⊢
  simp only [step] at hrun' ⊢
  cases hq : r.s.bfs_queue with
  | nil =>
    rw [step_bfs_nil r.s goal r.grid hq] at hrun'
    simp at hrun'
  | cons c rest =>
    by_cases hgoal : c = goal
    · rw [step_bfs_cons_found r.s goal r.grid c rest hq hgoal] at hrun'
      simp at hrun'
    · rw [step_bfs_cons_continue r.s goal r.grid c rest hq hgoal] at hrun' ⊢
      simp only
      have hcw : g0.is_walkable c = true :=
        hinv.q_walk c (by rw [hq]; exact List.mem_cons_self _ _)
      have hcnc : c ∉ r.s.closed_set :=
        hinv.q_closed c (by rw [hq]; exact List.mem_cons_self _ _)
      have hgrid2 : ∀ p, (markStep r.s.previous_node c r.grid).is_walkable p
          = g0.is_walkable p := by
        intro p
        unfold markStep
        have hgrid1 : ∀ p, (match r.s.previous_node with
            | some prev => r.grid.mark_previous_node_as_visited prev
            | none => r.grid).is_walkable p = g0.is_walkable p := by
          intro p
          cases hprev : r.s.previous_node with
          | none => exact hinv.grid_walk p
          | some pv =>
            rw [Grid.walk_mark_previous _ _ (by
              rw [hinv.grid_walk]; exact hinv.prev_walk pv hprev)]
            exact hinv.grid_walk p
        rw [Grid.walk_mark_current _ _ (by rw [hgrid1]; exact hcw)]
        exact hgrid1 p
      have hkey' : ∀ p ∈ rest, (alookup r.s.came_from p).isSome = true := by
        rcases hinv.q_key with hk | ⟨-, hlen⟩
        · intro p hp
          exact hk p (by rw [hq]; exact List.mem_cons_of_mem c hp)
        · rw [hq] at hlen
          simp only [List.length_cons] at hlen
          intro p hp
          rw [List.length_eq_zero.mp (show rest.length = 0 by omega)] at hp
          cases hp
      obtain ⟨hl_closed, hl_prev, hl_grid, hl_nodup, hl_cl, hl_walk, hl_key⟩ :=
        bfsLoop_inv c ((alookup r.s.g_costs c).getD 0)
          ((markStep r.s.previous_node c r.grid).get_walkable_neighbors c)
          (bfsPopState r.s c rest) (markStep r.s.previous_node c r.grid) g0
          (fun n hn => by
            rw [← hgrid2 n]
            exact Grid.walkable_of_mem_neighbors _ _ _ hn)
          hgrid2
          (hinv.q_nodup.sublist (by rw [hq]; exact List.sublist_cons_self c rest))
          (fun p hp => by
            show p ∉ setInsert r.s.closed_set c
            rw [mem_setInsert]
            push_neg
            refine ⟨hinv.q_closed p (by rw [hq]; exact List.mem_cons_of_mem c hp), ?_⟩
            intro hpc
            subst hpc
            have hnodup := hinv.q_nodup
            rw [hq] at hnodup
            exact absurd hp (List.nodup_cons.mp hnodup).1)
          (fun p hp => hinv.q_walk p (by rw [hq]; exact List.mem_cons_of_mem c hp))
          hkey'
      constructor
      · refine ⟨?_, ?_, ?_, ?_, ?_, ?_, ?_, ?_⟩
        · intro p
          rw [Grid.walk_mark_visited]
          exact hl_grid p
        · exact hl_nodup
        · exact hl_cl
        · exact hl_walk
        · intro p hp
          rw [hl_closed] at hp
          rcases (mem_setInsert _ _ _).mp hp with h | h
          · exact hinv.c_walk p h
          · rw [h]; exact hcw
        · rw [hl_closed]
          exact setInsert_nodup _ _ hinv.c_nodup
        · intro p hp
          rw [hl_prev] at hp
          cases hp
          exact hcw
        · exact Or.inl hl_key
      · rw [hl_closed]
        exact setInsert_length_of_not_mem _ _ hcnc

theorem dfs_step_term_inv (g0 : Grid) (goal : Position) (r : RunState)
    (hinv : DfsTermInv g0 r) (hrun : r.status = RunStatus.running)
    (hrun' : (runStep1 Algorithm.Dfs goal r).status = RunStatus.running) :
    DfsTermInv g0 (runStep1 Algorithm.Dfs goal r) ∧
      (runStep1 Algorithm.Dfs goal r).s.closed_set.length =
        r.s.closed_set.length + 1 := by
  rw [runStep1_running_eq Algorithm.Dfs goal r hrun] at hrun' ⊢
  simp only [step] at hrun' ⊢
  cases hq : r.s.dfs_stack.getLast? with
  | none =>
    rw [step_dfs_nil r.s goal r.grid hq] at hrun'
    simp at hrun'
  | some c =>
    obtain ⟨ys, hys⟩ := List.getLast?_eq_some_iff.mp hq
    have hcmem : c ∈ r.s.dfs_stack := by
      rw [hys]; exact List.mem_append.mpr (Or.inr (List.mem_singleton_self c))
    have hdrop : r.s.dfs_stack.dropLast = ys := by
      rw [hys]; exact List.dropLast_concat
    have hys_nodup : ys.Nodup := by
      have := hinv.q_nodup
      rw [hys, List.nodup_append] at this
      exact this.1
    have hcys : c ∉ ys := by
      have := hinv.q_nodup
      rw [hys, List.nodup_append] at this
      intro hc
      exact this.2.2 hc (List.mem_singleton_self c)
    by_cases hgoal : c = goal
    · rw [step_dfs_cons_found r.s goal r.grid c hq hgoal] at hrun'
      simp at hrun'
    · rw [step_dfs_cons_continue r.s goal r.grid c hq hgoal] at hrun' ⊢
      simp only
      have hcw : g0.is_walkable c = true := hinv.q_walk c hcmem
      have hcnc : c ∉ r.s.closed_set := hinv.q_closed c hcmem
      have hgrid2 : ∀ p, (markStep r.s.previous_node c r.grid).is_walkable p
          = g0.is_walkable p := by
        intro p
        unfold markStep
        have hgrid1 : ∀ p, (match r.s.previous_node with
            | some prev => r.grid.mark_previous_node_as_visited prev
            | none => r.grid).is_walkable p = g0.is_walkable p := by
          intro p
          cases hprev : r.s.previous_node with
          | none => exact hinv.grid_walk p
          | some pv =>
            rw [Grid.walk_mark_previous _ _ (by
              rw [hinv.grid_walk]; exact hinv.prev_walk pv hprev)]
            exact hinv.grid_walk p
        rw [Grid.walk_mark_current _ _ (by rw [hgrid1]; exact hcw)]
        exact hgrid1 p
      have hkey' : ∀ p ∈ r.s.dfs_stack.dropLast,
          (alookup r.s.came_from p).isSome = true := by
        rcases hinv.q_key with hk | ⟨-, hlen⟩
        · intro p hp
          exact hk p ((List.dropLast_sublist _).subset hp)
        · rw [hys] at hlen
          simp only [List.length_append, List.length_singleton] at hlen
          intro p hp
          rw [hdrop, List.length_eq_zero.mp (show ys.length = 0 by omega)] at hp
          cases hp
      obtain ⟨hl_closed, hl_prev, hl_grid, hl_nodup, hl_cl, hl_walk, hl_key⟩ :=
        dfsLoop_inv c ((alookup r.s.g_costs c).getD 0)
          ((markStep r.s.previous_node c r.grid).get_walkable_neighbors c).reverse
          (dfsPopState r.s c) (markStep r.s.previous_node c r.grid) g0
          (fun n hn => by
            rw [← hgrid2 n]
            exact Grid.walkable_of_mem_neighbors _ _ _ (List.mem_reverse.mp hn))
          hgrid2
          (by
            show (r.s.dfs_stack.dropLast).Nodup
            exact hinv.q_nodup.sublist (List.dropLast_sublist _))
          (fun p hp => by
            show p ∉ setInsert r.s.closed_set c
            rw [mem_setInsert]
            push_neg
            refine ⟨hinv.q_closed p ((List.dropLast_sublist _).subset hp), ?_⟩
            intro hpc
            subst hpc
            have hpy : p ∈ ys := by rw [← hdrop]; exact hp
            exact hcys hpy)
          (fun p hp => hinv.q_walk p ((List.dropLast_sublist _).subset hp))
          hkey'
      constructor
      · refine ⟨?_, ?_, ?_, ?_, ?_, ?_, ?_, ?_⟩
        · intro p
          rw [Grid.walk_mark_visited]
          exact hl_grid p
        · exact hl_nodup
        · exact hl_cl
        · exact hl_walk
        · intro p hp
          rw [hl_closed] at hp
          rcases (mem_setInsert _ _ _).mp hp with h | h
          · exact hinv.c_walk p h
          · rw [h]; exact hcw
        · rw [hl_closed]
          exact setInsert_nodup _ _ hinv.c_nodup
        · intro p hp
          rw [hl_prev] at hp
          cases hp
          exact hcw
        · exact Or.inl hl_key
      · rw [hl_closed]
        exact setInsert_length_of_not_mem _ _ hcnc

theorem isTerminal_false_iff (r : RunState) :
    r.isTerminal = false ↔ r.status = RunStatus.running := by
  rcases r with ⟨s, g, st⟩
  cases st <;> simp [RunState.isTerminal]

theorem bfs_run_inv (g0 : Grid) (start goal : Position)
    (hstart : g0.is_walkable start = true) (j : Nat)
    (hrun : (runSteps Algorithm.Bfs goal j
      (initRunState Algorithm.Bfs start goal g0)).status = RunStatus.running) :
    BfsTermInv g0 (runSteps Algorithm.Bfs goal j
      (initRunState Algorithm.Bfs start goal g0)) ∧
      (runSteps Algorithm.Bfs goal j
        (initRunState Algorithm.Bfs start goal g0)).s.closed_set.length = j := by
  induction j with
  | zero =>
    refine ⟨⟨fun p => rfl, ?_, ?_, ?_, ?_, ?_, ?_, ?_⟩, rfl⟩
    · show ([start] : List Position).Nodup
      exact List.nodup_singleton start
    · intro p _ hc
      exact (List.not_mem_nil p) hc
    · intro p hp
      rw [List.mem_singleton.mp hp]
      exact hstart
    · intro p hp
      exact absurd hp (List.not_mem_nil p)
    · exact List.nodup_nil
    · intro p h
      cases h
    · exact Or.inr ⟨rfl, Nat.le_refl 1⟩
  | succ j ih =>
    rw [runSteps_succ_right] at hrun ⊢
    have hrj : (runSteps Algorithm.Bfs goal j
        (initRunState Algorithm.Bfs start goal g0)).status = RunStatus.running := by
      by_contra hc
      rw [runStep1_of_terminal _ _ _ hc] at hrun
      exact hc hrun
    obtain ⟨hinv, hlen⟩ := ih hrj
    obtain ⟨hinv', hlen'⟩ := bfs_step_term_inv g0 goal _ hinv hrj hrun
    exact ⟨hinv', by rw [hlen', hlen]⟩

theorem dfs_run_inv (g0 : Grid) (start goal : Position)
    (hstart : g0.is_walkable start = true) (j : Nat)
    (hrun : (runSteps Algorithm.Dfs goal j
      (initRunState Algorithm.Dfs start goal g0)).status = RunStatus.running) :
    DfsTermInv g0 (runSteps Algorithm.Dfs goal j
      (initRunState Algorithm.Dfs start goal g0)) ∧
      (runSteps Algorithm.Dfs goal j
        (initRunState Algorithm.Dfs start goal g0)).s.closed_set.length = j := by
  induction j with
  | zero =>
    refine ⟨⟨fun p => rfl, ?_, ?_, ?_, ?_, ?_, ?_, ?_⟩, rfl⟩
    · show ([start] : List Position).Nodup
      exact List.nodup_singleton start
    · intro p _ hc
      exact (List.not_mem_nil p) hc
    · intro p hp
      rw [List.mem_singleton.mp hp]
      exact hstart
    · intro p hp
      exact absurd hp (List.not_mem_nil p)
    · exact List.nodup_nil
    · intro p h
      cases h
    · exact Or.inr ⟨rfl, Nat.le_refl 1⟩
  | succ j ih =>
    rw [runSteps_succ_right] at hrun ⊢
    have hrj : (runSteps Algorithm.Dfs goal j
        (initRunState Algorithm.Dfs start goal g0)).status = RunStatus.running := by
      by_contra hc
      rw [runStep1_of_terminal _ _ _ hc] at hrun
      exact hc hrun
    obtain ⟨hinv, hlen⟩ := ih hrj
    obtain ⟨hinv', hlen'⟩ := dfs_step_term_inv g0 goal _ hinv hrj hrun
    exact ⟨hinv', by rw [hlen', hlen]⟩

set_option maxRecDepth 400000 in
/-- **C4 counterexample.**  (i) BFS on the 1×1 grid (one walkable cell,
unreachable goal) is still running after 1 step and terminates only at the
2nd call; (ii) A* on `cexGrid` (16 walkable cells) is still running after 16
steps (re-admission makes pops outnumber walkable cells) and terminates at
the 17th.  Both refute the bound "within a number of step calls bounded by
the number of walkable cells". -/
theorem c4_counterexample :
    oneCellGrid.walkableCount = 1 ∧
    (runSteps Algorithm.Bfs ⟨5, 5⟩ 1
      (initRunState Algorithm.Bfs ⟨0, 0⟩ ⟨5, 5⟩ oneCellGrid)).isTerminal = false ∧
    (runSteps Algorithm.Bfs ⟨5, 5⟩ 2
      (initRunState Algorithm.Bfs ⟨0, 0⟩ ⟨5, 5⟩ oneCellGrid)).isTerminal = true ∧
    cexGrid.walkableCount = 16 ∧
    (runSteps Algorithm.AStar ⟨4, 3⟩ 16
      (initRunState Algorithm.AStar ⟨4, 0⟩ ⟨4, 3⟩ cexGrid)).isTerminal = false ∧
    (runSteps Algorithm.AStar ⟨4, 3⟩ 17
      (initRunState Algorithm.AStar ⟨4, 0⟩ ⟨4, 3⟩ cexGrid)).isTerminal = true := by
  refine ⟨by decide, by decide, by decide, by decide, by decide, by decide⟩

/-- **C4 (amended).**  For BFS and DFS, started from a walkable start cell,
a terminal outcome (`PathFound` or `NoPath`) is always returned within
`walkableCount + 1` step calls: each `Continue` step closes a distinct
walkable cell, and one extra call detects frontier exhaustion (or the goal).
For A*, no bound in terms of the number of walkable cells alone holds
(re-admitted duplicates make pops outnumber walkable cells — see the
counterexample). -/
theorem c4_bfs_dfs_terminal_within_bound (alg : Algorithm)
    (halg : alg = Algorithm.Bfs ∨ alg = Algorithm.Dfs)
    (start goal : Position) (grid : Grid)
    (hstart : grid.is_walkable start = true) :
    (runSteps alg goal (grid.walkableCount + 1)
      (initRunState alg start goal grid)).isTerminal = true := by
  rcases halg with rfl | rfl
  · by_contra hc
    rw [Bool.not_eq_true, isTerminal_false_iff] at hc
    obtain ⟨hinv, hlen⟩ := bfs_run_inv grid start goal hstart _ hc
    have := grid.length_le_walkableCount _ hinv.c_nodup hinv.c_walk
    omega
  · by_contra hc
    rw [Bool.not_eq_true, isTerminal_false_iff] at hc
    obtain ⟨hinv, hlen⟩ := dfs_run_inv grid start goal hstart _ hc
    have := grid.length_le_walkableCount _ hinv.c_nodup hinv.c_walk
    omega

/-- **C4 witness**: the amended bound instantiated for BFS on the 2×1 grid. -/
theorem c4_witness :
    (runSteps Algorithm.Bfs ⟨1, 0⟩ (twoCellGrid.walkableCount + 1)
      (initRunState Algorithm.Bfs ⟨0, 0⟩ ⟨1, 0⟩ twoCellGrid)).isTerminal = true :=
  c4_bfs_dfs_terminal_within_bound Algorithm.Bfs (Or.inl rfl) ⟨0, 0⟩ ⟨1, 0⟩
    twoCellGrid (by decide)

/-! ## Characterization of `step_astar` and the back-pointer chain -/

/-- The state right after the pop bookkeeping of `step_astar`. -/
def astarPopState (s : PathfindingState) (cur : Node) (rest : List Node) :
    PathfindingState :=
  { s with
    open_set := rest,
    closed_set := setInsert s.closed_set cur.position,
    current_node := some cur.position,
    step_count := s.step_count + 1,
    previous_node := some cur.position,
    last_step_info := "Step " ++ toString (s.step_count + 1) ++ ": pop (" ++
      toString cur.position.x ++ ", " ++ toString cur.position.y ++ ") with g=" ++
      toString cur.g_cost ++ ", h=" ++ toString cur.h_cost ++ ", f=" ++
      toString (cur.g_cost + cur.h_cost) ++ " (" ++ toString rest.length ++
      " open, " ++ toString (setInsert s.closed_set cur.position).length ++
      " closed)",
    last_neighbors := [] }

/-- `step_astar` when the popped node is the goal. -/
theorem step_astar_pop_found (s : PathfindingState) (goal : Position)
    (grid : Grid) (cur : Node) (rest : List Node)
    (hpop : heapPopMax s.open_set = some (cur, rest))
    (hg : cur.position = goal) :
    step_astar s goal grid =
      (astarPopState s cur rest, markStep s.previous_node cur.position grid,
       StepResult.PathFound (reconstruct_path s.came_from cur.position)) := by
  unfold step_astar
  rw [hpop]
  dsimp only [markStep, astarPopState]
  rw [if_pos hg]

/-- `step_astar` when the popped node is not the goal: decision loop over
the walkable non-closed neighbors, admission loop, visited repaint. -/
theorem step_astar_pop_continue (s : PathfindingState) (goal : Position)
    (grid : Grid) (cur : Node) (rest : List Node)
    (hpop : heapPopMax s.open_set = some (cur, rest))
    (hg : ¬ cur.position = goal) :
    step_astar s goal grid =
      ((astarAdd cur.position
          (astarDecide rest cur.g_cost goal
            (((markStep s.previous_node cur.position grid).get_walkable_neighbors
                cur.position).filter
              (fun p => !(p ∈ setInsert s.closed_set cur.position : Bool)))).1
          { astarPopState s cur rest with
            last_neighbors := (astarDecide rest cur.g_cost goal
              (((markStep s.previous_node cur.position grid).get_walkable_neighbors
                  cur.position).filter
                (fun p => !(p ∈ setInsert s.closed_set cur.position : Bool)))).2 }
          (markStep s.previous_node cur.position grid)).1,
       ((astarAdd cur.position
          (astarDecide rest cur.g_cost goal
            (((markStep s.previous_node cur.position grid).get_walkable_neighbors
                cur.position).filter
              (fun p => !(p ∈ setInsert s.closed_set cur.position : Bool)))).1
          { astarPopState s cur rest with
            last_neighbors := (astarDecide rest cur.g_cost goal
              (((markStep s.previous_node cur.position grid).get_walkable_neighbors
                  cur.position).filter
                (fun p => !(p ∈ setInsert s.closed_set cur.position : Bool)))).2 }
          (markStep s.previous_node cur.position grid)).2).mark_visited
         ((astarAdd cur.position
          (astarDecide rest cur.g_cost goal
            (((markStep s.previous_node cur.position grid).get_walkable_neighbors
                cur.position).filter
              (fun p => !(p ∈ setInsert s.closed_set cur.position : Bool)))).1
          { astarPopState s cur rest with
            last_neighbors := (astarDecide rest cur.g_cost goal
              (((markStep s.previous_node cur.position grid).get_walkable_neighbors
                  cur.position).filter
                (fun p => !(p ∈ setInsert s.closed_set cur.position : Bool)))).2 }
          (markStep s.previous_node cur.position grid)).1).closed_set
         none none,
       StepResult.Continue) := by
  unfold step_astar
  rw [hpop]
  dsimp only [markStep, astarPopState]
  rw [if_neg hg]

theorem self_mem_setInsert (l : List Position) (p : Position) :
    p ∈ setInsert l p := by
  rw [mem_setInsert]
  exact Or.inr rfl

theorem mem_setInsert_of_mem (l : List Position) (p q : Position)
    (h : q ∈ l) : q ∈ setInsert l p := by
  rw [mem_setInsert]
  exact Or.inl h

theorem indexOf_append_singleton_self (l : List Position) (c : Position)
    (h : c ∉ l) : (l ++ [c]).indexOf c = l.length := by
  induction l with
  | nil => simp [List.indexOf_cons]
  | cons a t ih =>
    rw [List.cons_append, List.indexOf_cons]
    have hac : (a == c) = false := by
      simp only [beq_eq_false_iff_ne]
      intro hf
      exact h (hf ▸ List.mem_cons_self a t)
    rw [hac]
    simp only [cond_false, List.length_cons]
    rw [ih (fun hm => h (List.mem_cons_of_mem a hm))]

theorem setInsert_indexOf_mem (l : List Position) (c p : Position)
    (hp : p ∈ l) : (setInsert l c).indexOf p = l.indexOf p := by
  unfold setInsert
  split
  · rfl
  · exact List.indexOf_append_of_mem hp

theorem alookup_isSome_mem_fst {β : Type} (cf : List (Position × β))
    (k : Position) (h : (alookup cf k).isSome = true) : k ∈ cf.map Prod.fst := by
  induction cf with
  | nil => cases h
  | cons e t ih =>
    rcases e with ⟨k', v⟩
    rw [alookup_cons] at h
    by_cases hk : k' = k
    · rw [List.map_cons]
      rw [hk]
      exact List.mem_cons_self _ _
    · rw [if_neg hk] at h
      exact List.mem_cons_of_mem _ (ih h)

/-- A duplicate-free closed set whose non-start members all carry a
back-pointer has at most `|came_from| + 1` members. -/
theorem closed_length_le_cf (closed : List Position)
    (cf : List (Position × Position)) (start : Position)
    (hnd : closed.Nodup)
    (hkey : ∀ k ∈ closed, k ≠ start → (alookup cf k).isSome = true) :
    closed.length ≤ cf.length + 1 := by
  have hsub : closed.toFinset ⊆ insert start (cf.map Prod.fst).toFinset := by
    intro k hk
    rw [List.mem_toFinset] at hk
    rw [Finset.mem_insert]
    by_cases hks : k = start
    · exact Or.inl hks
    · right
      rw [List.mem_toFinset]
      exact alookup_isSome_mem_fst _ _ (hkey k hk hks)
  calc closed.length = closed.toFinset.card := (List.toFinset_card_of_nodup hnd).symm
    _ ≤ (insert start (cf.map Prod.fst).toFinset).card := Finset.card_le_card hsub
    _ ≤ (cf.map Prod.fst).toFinset.card + 1 := Finset.card_insert_le _ _
    _ ≤ (cf.map Prod.fst).length + 1 := by
        have := (cf.map Prod.fst).toFinset_card_le
        omega
    _ = cf.length + 1 := by rw [List.length_map]

/-- Well-formedness of the back-pointer map relative to the closed set:
every parent is closed and strictly earlier in closing order than its
(closed) child, `start` has no parent, and every closed position other than
`start` has one. -/
def CFWF (start : Position) (cf : List (Position × Position))
    (closed : List Position) : Prop :=
  (∀ k p, alookup cf k = some p →
    p ∈ closed ∧ (k ∈ closed → closed.indexOf p < closed.indexOf k)) ∧
  alookup cf start = none ∧
  (∀ k ∈ closed, k ≠ start → (alookup cf k).isSome = true)

theorem chainAux_ne_nil (fuel : Nat) (cf : List (Position × Position))
    (c : Position) : chainAux fuel cf c ≠ [] := by
  cases fuel with
  | zero => simp [chainAux]
  | succ f =>
    unfold chainAux
    cases alookup cf c <;> simp

/-- Under `CFWF`, the parent chain from any closed position ends at `start`,
visits only closed positions, and is a single element exactly when the
position is `start` itself. -/
theorem chain_spec (start : Position) (cf : List (Position × Position))
    (closed : List Position) (hwf : CFWF start cf closed) :
    ∀ fuel, ∀ k ∈ closed, closed.indexOf k < fuel →
      (chainAux fuel cf k).head? = some k ∧
      (chainAux fuel cf k).getLast? = some start ∧
      (∀ q ∈ chainAux fuel cf k, q ∈ closed) ∧
      ((chainAux fuel cf k).length = 1 ↔ k = start) := by
  intro fuel
  induction fuel with
  | zero => exact fun k _ hidx => absurd hidx (Nat.not_lt_zero _)
  | succ f ih =>
    intro k hk hidx
    cases hl : alookup cf k with
    | none =>
      have hks : k = start := by
        by_contra hne
        have := hwf.2.2 k hk hne
        rw [hl] at this
        cases this
      have hchain : chainAux (f + 1) cf k = [k] := by
        conv_lhs => unfold chainAux
        rw [hl]
      rw [hchain]
      refine ⟨rfl, ?_, ?_, ?_⟩
      · rw [hks]; rfl
      · intro q hq
        rw [List.mem_singleton.mp hq]
        exact hk
      · simp [hks]
    | some p =>
      obtain ⟨hpc, hord⟩ := hwf.1 k p hl
      have hidxp : closed.indexOf p < f :=
        lt_of_lt_of_le (hord hk) (Nat.lt_succ_iff.mp hidx)
      obtain ⟨hh, hlast, hmem, _⟩ := ih p hpc hidxp
      have hchain : chainAux (f + 1) cf k = k :: chainAux f cf p := by
        conv_lhs => unfold chainAux
        rw [hl]
      rw [hchain]
      refine ⟨rfl, ?_, ?_, ?_⟩
      · rw [List.getLast?_cons, hlast]
        rfl
      · intro q hq
        rcases List.mem_cons.mp hq with rfl | hq'
        · exact hk
        · exact hmem q hq'
      · constructor
        · intro hlen
          exfalso
          have := chainAux_ne_nil f cf p
          simp only [List.length_cons, Nat.add_eq_one_iff] at hlen
          rcases hlen with ⟨hz, -⟩ | ⟨-, hno⟩
          · exact this (List.length_eq_zero.mp hz)
          · omega
        · intro hks
          exfalso
          rw [hks] at hl
          rw [hwf.2.1] at hl
          cases hl

/-! ## Reachability invariant: back-pointer well-formedness along every run -/

/-- The positions currently on the frontier of the given algorithm. -/
def frontierPositions (alg : Algorithm) (s : PathfindingState) : List Position :=
  match alg with
  | Algorithm.AStar => s.open_set.map Node.position
  | Algorithm.Bfs => s.bfs_queue
  | Algorithm.Dfs => s.dfs_stack

/-- Invariant maintained by every run (any algorithm) started from
`initialize(alg, start, _)`: the back-pointer map is well-formed w.r.t. the
closed set, the closed set is duplicate-free, every frontier position is
`start` or carries a back-pointer, and `start` is closed as soon as anything
is. -/
structure ReachInv (alg : Algorithm) (start : Position) (r : RunState) : Prop where
  cf_wf : CFWF start r.s.came_from r.s.closed_set
  closed_nodup : r.s.closed_set.Nodup
  frontier_key : ∀ p ∈ frontierPositions alg r.s,
    p = start ∨ (alookup r.s.came_from p).isSome = true
  start_closed : start ∈ r.s.closed_set ∨ frontierPositions alg r.s = [start]

theorem pop_preserves_CFWF (start c : Position)
    (cf : List (Position × Position)) (closed : List Position)
    (hwf : CFWF start cf closed)
    (hck : c = start ∨ (alookup cf c).isSome = true) :
    CFWF start cf (setInsert closed c) := by
  by_cases hc : c ∈ closed
  · unfold setInsert
    rw [if_pos hc]
    exact hwf
  · have hins : setInsert closed c = closed ++ [c] := by
      unfold setInsert
      rw [if_neg hc]
    rw [hins]
    refine ⟨?_, hwf.2.1, ?_⟩
    · intro k p hl
      obtain ⟨hpc, hord⟩ := hwf.1 k p hl
      refine ⟨List.mem_append.mpr (Or.inl hpc), ?_⟩
      intro hk'
      rcases List.mem_append.mp hk' with hk | hk
      · rw [List.indexOf_append_of_mem hpc, List.indexOf_append_of_mem hk]
        exact hord hk
      · rw [List.mem_singleton] at hk
        subst hk
        rw [List.indexOf_append_of_mem hpc, indexOf_append_singleton_self closed k hc]
        exact List.indexOf_lt_length.mpr hpc
    · intro k hk hkne
      rcases List.mem_append.mp hk with hk | hk
      · exact hwf.2.2 k hk hkne
      · rw [List.mem_singleton] at hk
        subst hk
        rcases hck with h | h
        · exact absurd h hkne
        · exact h

theorem insert_preserves_CFWF (start n cur : Position)
    (cf : List (Position × Position)) (closed : List Position)
    (hwf : CFWF start cf closed) (hcur : cur ∈ closed) (hn : n ∉ closed)
    (hstart : start ∈ closed) :
    CFWF start ((n, cur) :: cf) closed := by
  refine ⟨?_, ?_, ?_⟩
  · intro k p hl
    rw [alookup_cons] at hl
    by_cases hk : n = k
    · rw [if_pos hk] at hl
      cases hl
      subst hk
      exact ⟨hcur, fun hkc => absurd hkc hn⟩
    · rw [if_neg hk] at hl
      exact hwf.1 k p hl
  · rw [alookup_cons]
    have hns : ¬ (n = start) := by
      intro h
      rw [h] at hn
      exact hn hstart
    rw [if_neg hns]
    exact hwf.2.1
  · intro k hk hkne
    exact alookup_cons_isSome _ _ _ _ (hwf.2.2 k hk hkne)

theorem bfsLoop_reach (c : Position) (gval : Int) (ns : List Position)
    (s : PathfindingState) (grid : Grid) (start : Position)
    (hwf : CFWF start s.came_from s.closed_set)
    (hstart : start ∈ s.closed_set)
    (hcur : c ∈ s.closed_set)
    (hfk : ∀ p ∈ s.bfs_queue, p = start ∨ (alookup s.came_from p).isSome = true) :
    CFWF start (bfsLoop c gval ns s grid).1.came_from
      (bfsLoop c gval ns s grid).1.closed_set ∧
    (bfsLoop c gval ns s grid).1.closed_set = s.closed_set ∧
    (∀ p ∈ (bfsLoop c gval ns s grid).1.bfs_queue,
      p = start ∨ (alookup (bfsLoop c gval ns s grid).1.came_from p).isSome = true) := by
  induction ns generalizing s grid with
  | nil => exact ⟨hwf, rfl, hfk⟩
  | cons n rest ih =>
    unfold bfsLoop
    split
    case isTrue => exact ih _ _ hwf hstart hcur hfk
    case isFalse hfresh =>
      push_neg at hfresh
      apply ih
      · exact insert_preserves_CFWF start n c _ _ hwf hcur hfresh.1 hstart
      · exact hstart
      · exact hcur
      · show ∀ p ∈ s.bfs_queue ++ [n],
          p = start ∨ (alookup ((n, c) :: s.came_from) p).isSome = true
        intro p hp
        rcases List.mem_append.mp hp with h | h
        · rcases hfk p h with h' | h'
          · exact Or.inl h'
          · exact Or.inr (alookup_cons_isSome _ _ _ _ h')
        · rw [List.mem_singleton] at h
          subst h
          right
          rw [alookup_cons, if_pos rfl]
          rfl

theorem dfsLoop_reach (c : Position) (gval : Int) (ns : List Position)
    (s : PathfindingState) (grid : Grid) (start : Position)
    (hwf : CFWF start s.came_from s.closed_set)
    (hstart : start ∈ s.closed_set)
    (hcur : c ∈ s.closed_set)
    (hfk : ∀ p ∈ s.dfs_stack, p = start ∨ (alookup s.came_from p).isSome = true) :
    CFWF start (dfsLoop c gval ns s grid).1.came_from
      (dfsLoop c gval ns s grid).1.closed_set ∧
    (dfsLoop c gval ns s grid).1.closed_set = s.closed_set ∧
    (∀ p ∈ (dfsLoop c gval ns s grid).1.dfs_stack,
      p = start ∨ (alookup (dfsLoop c gval ns s grid).1.came_from p).isSome = true) := by
  induction ns generalizing s grid with
  | nil => exact ⟨hwf, rfl, hfk⟩
  | cons n rest ih =>
    unfold dfsLoop
    split
    case isTrue => exact ih _ _ hwf hstart hcur hfk
    case isFalse hfresh =>
      push_neg at hfresh
      apply ih
      · exact insert_preserves_CFWF start n c _ _ hwf hcur hfresh.1 hstart
      · exact hstart
      · exact hcur
      · show ∀ p ∈ s.dfs_stack ++ [n],
          p = start ∨ (alookup ((n, c) :: s.came_from) p).isSome = true
        intro p hp
        rcases List.mem_append.mp hp with h | h
        · rcases hfk p h with h' | h'
          · exact Or.inl h'
          · exact Or.inr (alookup_cons_isSome _ _ _ _ h')
        · rw [List.mem_singleton] at h
          subst h
          right
          rw [alookup_cons, if_pos rfl]
          rfl

theorem astarAdd_reach (cur : Position) (l : List (Position × Node))
    (s : PathfindingState) (grid : Grid) (start : Position)
    (hwf : CFWF start s.came_from s.closed_set)
    (hstart : start ∈ s.closed_set)
    (hcur : cur ∈ s.closed_set)
    (hl : ∀ pn ∈ l, pn.1 ∉ s.closed_set ∧ pn.2.position = pn.1)
    (hfk : ∀ e ∈ s.open_set,
      e.position = start ∨ (alookup s.came_from e.position).isSome = true) :
    CFWF start (astarAdd cur l s grid).1.came_from
      (astarAdd cur l s grid).1.closed_set ∧
    (astarAdd cur l s grid).1.closed_set = s.closed_set ∧
    (∀ e ∈ (astarAdd cur l s grid).1.open_set,
      e.position = start ∨
        (alookup (astarAdd cur l s grid).1.came_from e.position).isSome = true) := by
  induction l generalizing s grid with
  | nil => exact ⟨hwf, rfl, hfk⟩
  | cons pn rest ih =>
    unfold astarAdd
    apply ih
    · exact insert_preserves_CFWF start pn.1 cur _ _ hwf hcur
        (hl pn (List.mem_cons_self _ _)).1 hstart
    · exact hstart
    · exact hcur
    · exact fun qn hqn => hl qn (List.mem_cons_of_mem _ hqn)
    · show ∀ e ∈ s.open_set ++ [pn.2],
        e.position = start ∨ (alookup ((pn.1, cur) :: s.came_from) e.position).isSome = true
      intro e he
      rcases List.mem_append.mp he with h | h
      · rcases hfk e h with h' | h'
        · exact Or.inl h'
        · exact Or.inr (alookup_cons_isSome _ _ _ _ h')
      · rw [List.mem_singleton] at h
        subst h
        right
        rw [(hl pn (List.mem_cons_self _ _)).2, alookup_cons, if_pos rfl]
        rfl

theorem astarDecide_fst_mem (snapshot : List Node) (cur_g : Int)
    (goal : Position) (ns : List Position) :
    ∀ pn ∈ (astarDecide snapshot cur_g goal ns).1,
      pn.1 ∈ ns ∧ pn.2.position = pn.1 := by
  rw [astarDecide_fst]
  intro pn hpn
  obtain ⟨n, hn, heq⟩ := List.mem_filterMap.mp hpn
  split at heq
  · cases heq
  · cases heq
    exact ⟨hn, rfl⟩

theorem heapPopMax_mem (l : List Node) (cur : Node) (rest : List Node)
    (h : heapPopMax l = some (cur, rest)) : cur ∈ l ∧ ∀ e ∈ rest, e ∈ l := by
  induction l generalizing cur rest with
  | nil => cases h
  | cons n t ih =>
    unfold heapPopMax at h
    cases hpm : heapPopMax t with
    | none =>
      rw [hpm] at h
      dsimp only at h
      cases h
      exact ⟨List.mem_cons_self _ _, fun e he => absurd he (List.not_mem_nil e)⟩
    | some p =>
      rcases p with ⟨m, t'⟩
      rw [hpm] at h
      dsimp only at h
      obtain ⟨hm, ht'⟩ := ih m t' hpm
      by_cases hcmp : (n.cmp m) = Ordering.lt
      · rw [if_pos hcmp] at h
        cases h
        refine ⟨List.mem_cons_of_mem _ hm, ?_⟩
        intro e he
        rcases List.mem_cons.mp he with rfl | he'
        · exact List.mem_cons_self _ _
        · exact List.mem_cons_of_mem _ (ht' e he')
      · rw [if_neg hcmp] at h
        cases h
        exact ⟨List.mem_cons_self _ _, fun e he => List.mem_cons_of_mem _ he⟩

theorem step_astar_nil (s : PathfindingState) (goal : Position) (grid : Grid)
    (hq : heapPopMax s.open_set = none) :
    step_astar s goal grid =
      ({ s with last_step_info := "Open set empty → no path" }, grid,
        StepResult.NoPath) := by
  unfold step_astar
  rw [hq]

theorem reach_step_bfs (start goal : Position) (r : RunState)
    (hinv : ReachInv Algorithm.Bfs start r) (hrun : r.status = RunStatus.running) :
    ReachInv Algorithm.Bfs start (runStep1 Algorithm.Bfs goal r) := by
  rw [runStep1_running_eq _ _ _ hrun]
  simp only [step]
  cases hq : r.s.bfs_queue with
  | nil =>
    rw [step_bfs_nil _ _ _ hq]
    exact ⟨hinv.cf_wf, hinv.closed_nodup, hinv.frontier_key, hinv.start_closed⟩
  | cons c rest =>
    have hckey : c = start ∨ (alookup r.s.came_from c).isSome = true :=
      hinv.frontier_key c (by
        show c ∈ r.s.bfs_queue
        rw [hq]
        exact List.mem_cons_self _ _)
    have hstart' : start ∈ setInsert r.s.closed_set c := by
      rcases hinv.start_closed with h | h
      · exact mem_setInsert_of_mem _ _ _ h
      · have h' : r.s.bfs_queue = [start] := h
        rw [hq] at h'
        cases h'
        exact self_mem_setInsert _ _
    have hwf' : CFWF start r.s.came_from (setInsert r.s.closed_set c) :=
      pop_preserves_CFWF start c _ _ hinv.cf_wf hckey
    have hnd' : (setInsert r.s.closed_set c).Nodup :=
      setInsert_nodup _ _ hinv.closed_nodup
    have hfk_rest : ∀ p ∈ rest, p = start ∨ (alookup r.s.came_from p).isSome = true :=
      fun p hp => hinv.frontier_key p (by
        show p ∈ r.s.bfs_queue
        rw [hq]
        exact List.mem_cons_of_mem c hp)
    by_cases hgoal : c = goal
    · rw [step_bfs_cons_found _ _ _ _ _ hq hgoal]
      exact ⟨hwf', hnd', hfk_rest, Or.inl hstart'⟩
    · rw [step_bfs_cons_continue _ _ _ _ _ hq hgoal]
      obtain ⟨hwf'', hcl'', hfk''⟩ := bfsLoop_reach c
        ((alookup r.s.g_costs c).getD 0)
        ((markStep r.s.previous_node c r.grid).get_walkable_neighbors c)
        (bfsPopState r.s c rest) (markStep r.s.previous_node c r.grid) start
        hwf' hstart' (self_mem_setInsert _ _) hfk_rest
      refine ⟨hwf'', ?_, hfk'', Or.inl ?_⟩
      · rw [hcl'']
        exact hnd'
      · rw [hcl'']
        exact hstart'

theorem reach_step_dfs (start goal : Position) (r : RunState)
    (hinv : ReachInv Algorithm.Dfs start r) (hrun : r.status = RunStatus.running) :
    ReachInv Algorithm.Dfs start (runStep1 Algorithm.Dfs goal r) := by
  rw [runStep1_running_eq _ _ _ hrun]
  simp only [step]
  cases hq : r.s.dfs_stack.getLast? with
  | none =>
    rw [step_dfs_nil _ _ _ hq]
    exact ⟨hinv.cf_wf, hinv.closed_nodup, hinv.frontier_key, hinv.start_closed⟩
  | some c =>
    obtain ⟨ys, hys⟩ := List.getLast?_eq_some_iff.mp hq
    have hcmem : c ∈ r.s.dfs_stack := by
      rw [hys]
      exact List.mem_append.mpr (Or.inr (List.mem_singleton_self c))
    have hckey : c = start ∨ (alookup r.s.came_from c).isSome = true :=
      hinv.frontier_key c hcmem
    have hstart' : start ∈ setInsert r.s.closed_set c := by
      rcases hinv.start_closed with h | h
      · exact mem_setInsert_of_mem _ _ _ h
      · have h' : r.s.dfs_stack = [start] := h
        rw [h'] at hq
        cases hq
        exact self_mem_setInsert _ _
    have hwf' : CFWF start r.s.came_from (setInsert r.s.closed_set c) :=
      pop_preserves_CFWF start c _ _ hinv.cf_wf hckey
    have hnd' : (setInsert r.s.closed_set c).Nodup :=
      setInsert_nodup _ _ hinv.closed_nodup
    have hfk_rest : ∀ p ∈ r.s.dfs_stack.dropLast,
        p = start ∨ (alookup r.s.came_from p).isSome = true :=
      fun p hp => hinv.frontier_key p ((List.dropLast_sublist _).subset hp)
    by_cases hgoal : c = goal
    · rw [step_dfs_cons_found _ _ _ _ hq hgoal]
      exact ⟨hwf', hnd', hfk_rest, Or.inl hstart'⟩
    · rw [step_dfs_cons_continue _ _ _ _ hq hgoal]
      obtain ⟨hwf'', hcl'', hfk''⟩ := dfsLoop_reach c
        ((alookup r.s.g_costs c).getD 0)
        ((markStep r.s.previous_node c r.grid).get_walkable_neighbors c).reverse
        (dfsPopState r.s c) (markStep r.s.previous_node c r.grid) start
        hwf' hstart' (self_mem_setInsert _ _) hfk_rest
      refine ⟨hwf'', ?_, hfk'', Or.inl ?_⟩
      · rw [hcl'']
        exact hnd'
      · rw [hcl'']
        exact hstart'

theorem reach_step_astar (start goal : Position) (r : RunState)
    (hinv : ReachInv Algorithm.AStar start r) (hrun : r.status = RunStatus.running) :
    ReachInv Algorithm.AStar start (runStep1 Algorithm.AStar goal r) := by
  rw [runStep1_running_eq _ _ _ hrun]
  simp only [step]
  cases hpop : heapPopMax r.s.open_set with
  | none =>
    rw [step_astar_nil _ _ _ hpop]
    exact ⟨hinv.cf_wf, hinv.closed_nodup, hinv.frontier_key, hinv.start_closed⟩
  | some p =>
    rcases p with ⟨cur, rest⟩
    obtain ⟨hcurmem, hrestmem⟩ := heapPopMax_mem _ _ _ hpop
    have hckey : cur.position = start ∨
        (alookup r.s.came_from cur.position).isSome = true :=
      hinv.frontier_key cur.position (by
        show cur.position ∈ r.s.open_set.map Node.position
        exact List.mem_map.mpr ⟨cur, hcurmem, rfl⟩)
    have hstart' : start ∈ setInsert r.s.closed_set cur.position := by
      rcases hinv.start_closed with h | h
      · exact mem_setInsert_of_mem _ _ _ h
      · have h' : r.s.open_set.map Node.position = [start] := h
        have : cur.position ∈ r.s.open_set.map Node.position :=
          List.mem_map.mpr ⟨cur, hcurmem, rfl⟩
        rw [h'] at this
        rw [List.mem_singleton.mp this]
        exact self_mem_setInsert _ _
    have hwf' : CFWF start r.s.came_from (setInsert r.s.closed_set cur.position) :=
      pop_preserves_CFWF start cur.position _ _ hinv.cf_wf hckey
    have hnd' : (setInsert r.s.closed_set cur.position).Nodup :=
      setInsert_nodup _ _ hinv.closed_nodup
    have hfk_rest : ∀ e ∈ rest,
        e.position = start ∨ (alookup r.s.came_from e.position).isSome = true :=
      fun e he => hinv.frontier_key e.position (by
        show e.position ∈ r.s.open_set.map Node.position
        exact List.mem_map.mpr ⟨e, hrestmem e he, rfl⟩)
    by_cases hgoal : cur.position = goal
    · rw [step_astar_pop_found _ _ _ _ _ hpop hgoal]
      refine ⟨hwf', hnd', ?_, Or.inl hstart'⟩
      intro p hp
      obtain ⟨e, he, rfl⟩ := List.mem_map.mp hp
      exact hfk_rest e he
    · rw [step_astar_pop_continue _ _ _ _ _ hpop hgoal]
      obtain ⟨hwf'', hcl'', hfk''⟩ := astarAdd_reach cur.position
        (astarDecide rest cur.g_cost goal
          (((markStep r.s.previous_node cur.position r.grid).get_walkable_neighbors
              cur.position).filter
            (fun p => !(p ∈ setInsert r.s.closed_set cur.position : Bool)))).1
        { astarPopState r.s cur rest with
          last_neighbors := (astarDecide rest cur.g_cost goal
            (((markStep r.s.previous_node cur.position r.grid).get_walkable_neighbors
                cur.position).filter
              (fun p => !(p ∈ setInsert r.s.closed_set cur.position : Bool)))).2 }
        (markStep r.s.previous_node cur.position r.grid) start
        hwf' hstart' (self_mem_setInsert _ _)
        (by
          intro pn hpn
          obtain ⟨hmem, hpos⟩ := astarDecide_fst_mem _ _ _ _ pn hpn
          refine ⟨?_, hpos⟩
          have := (List.mem_filter.mp hmem).2
          simp only [Bool.not_eq_true', decide_eq_false_iff_not] at this
          exact this)
        hfk_rest
      refine ⟨hwf'', ?_, ?_, Or.inl ?_⟩
      · rw [hcl'']
        exact hnd'
      · intro p hp
        obtain ⟨e, he, rfl⟩ := List.mem_map.mp hp
        exact hfk'' e he
      · rw [hcl'']
        exact hstart'

theorem reach_run_inv (alg : Algorithm) (start goal : Position) (grid : Grid)
    (k : Nat) :
    ReachInv alg start (runSteps alg goal k (initRunState alg start goal grid)) := by
  induction k with
  | zero =>
    cases alg <;>
      exact ⟨And.intro (fun k p hl => by cases hl)
          (And.intro rfl (fun k hk _ => absurd hk (List.not_mem_nil k))),
        List.nodup_nil, fun p hp => Or.inl (List.mem_singleton.mp hp), Or.inr rfl⟩
  | succ k ih =>
    rw [runSteps_succ_right]
    cases hst : (runSteps alg goal k (initRunState alg start goal grid)).status with
    | running =>
      cases alg with
      | AStar => exact reach_step_astar start goal _ ih hst
      | Bfs => exact reach_step_bfs start goal _ ih hst
      | Dfs => exact reach_step_dfs start goal _ ih hst
    | foundPath path =>
      rw [runStep1_of_terminal _ _ _ (by rw [hst]; intro hc; cases hc)]
      exact ih
    | noPath =>
      rw [runStep1_of_terminal _ _ _ (by rw [hst]; intro hc; cases hc)]
      exact ih

/-- C10: after `initialize` and after every `step` call of every algorithm,
every parent position stored in `came_from` is a member of `closed_set`;
consequently the back-pointer walk of `reconstruct_path`, started from any
closed position (in particular the popped goal, which `step` closes before
reconstructing), visits only closed — hence discovered — positions, and
terminates: it ends at `start`, so the reconstructed path runs from `start`
to that position. -/
theorem c10_came_from_values_closed (alg : Algorithm) (start goal : Position)
    (grid : Grid) (k : Nat) :
    (∀ c p,
      alookup (runSteps alg goal k (initRunState alg start goal grid)).s.came_from c
        = some p →
      p ∈ (runSteps alg goal k (initRunState alg start goal grid)).s.closed_set) ∧
    ∀ c ∈ (runSteps alg goal k (initRunState alg start goal grid)).s.closed_set,
      (reconstruct_path
          (runSteps alg goal k (initRunState alg start goal grid)).s.came_from c).head?
        = some start ∧
      (reconstruct_path
          (runSteps alg goal k (initRunState alg start goal grid)).s.came_from c).getLast?
        = some c ∧
      ∀ q ∈ reconstruct_path
          (runSteps alg goal k (initRunState alg start goal grid)).s.came_from c,
        q ∈ (runSteps alg goal k (initRunState alg start goal grid)).s.closed_set := by
  have hinv := reach_run_inv alg start goal grid k
  constructor
  · exact fun c p hl => (hinv.cf_wf.1 c p hl).1
  · intro c hc
    have hlen := closed_length_le_cf _ _ start hinv.closed_nodup hinv.cf_wf.2.2
    have hidx :
        (runSteps alg goal k (initRunState alg start goal grid)).s.closed_set.indexOf c
          < (runSteps alg goal k (initRunState alg start goal grid)).s.came_from.length + 1 :=
      lt_of_lt_of_le (List.indexOf_lt_length.mpr hc) hlen
    obtain ⟨hh, hlast, hmem, -⟩ :=
      chain_spec start _ _ hinv.cf_wf _ c hc hidx
    refine ⟨?_, ?_, ?_⟩
    · rw [reconstruct_path, List.head?_reverse]
      exact hlast
    · rw [reconstruct_path, List.getLast?_reverse]
      exact hh
    · intro q hq
      rw [reconstruct_path, List.mem_reverse] at hq
      exact hmem q hq

set_option maxRecDepth 400000 in
/-- Witness for C10 on the 1x1 grid after two BFS steps: the start cell is
closed, `came_from` is empty so its (vacuous) values lie in the closed set,
and the reconstruction walk from the start cell is `[start]`. -/
theorem c10_witness :
    (⟨0, 0⟩ : Position) ∈
      (runSteps Algorithm.Bfs ⟨5, 5⟩ 2
        (initRunState Algorithm.Bfs ⟨0, 0⟩ ⟨5, 5⟩ oneCellGrid)).s.closed_set ∧
    (reconstruct_path
        (runSteps Algorithm.Bfs ⟨5, 5⟩ 2
          (initRunState Algorithm.Bfs ⟨0, 0⟩ ⟨5, 5⟩ oneCellGrid)).s.came_from
        ⟨0, 0⟩).head? = some ⟨0, 0⟩ := by
  have h := c10_came_from_values_closed Algorithm.Bfs ⟨0, 0⟩ ⟨5, 5⟩ oneCellGrid 2
  exact ⟨by decide, (h.2 ⟨0, 0⟩ (by decide)).1⟩

/-- Shape of `reconstruct_path` from a just-popped frontier position `c`
equal to the goal, under back-pointer well-formedness of the pre-pop state:
the result starts at `start`, ends at `goal`, is nonempty, and is a
singleton exactly when `start = goal`. -/
theorem recon_shape (start goal c : Position) (cf : List (Position × Position))
    (closed : List Position) (hwf : CFWF start cf closed) (hnd : closed.Nodup)
    (hck : c = start ∨ (alookup cf c).isSome = true) (hcg : c = goal) :
    (reconstruct_path cf c).head? = some start ∧
    (reconstruct_path cf c).getLast? = some goal ∧
    1 ≤ (reconstruct_path cf c).length ∧
    ((reconstruct_path cf c).length = 1 ↔ start = goal) := by
  have hwf' := pop_preserves_CFWF start c cf closed hwf hck
  have hnd' := setInsert_nodup closed c hnd
  have hc : c ∈ setInsert closed c := self_mem_setInsert closed c
  have hlen := closed_length_le_cf _ cf start hnd' hwf'.2.2
  have hidx : (setInsert closed c).indexOf c < cf.length + 1 :=
    lt_of_lt_of_le (List.indexOf_lt_length.mpr hc) hlen
  obtain ⟨hh, hlast, -, hone⟩ := chain_spec start cf _ hwf' _ c hc hidx
  rw [hcg] at hone
  refine ⟨?_, ?_, ?_, ?_⟩
  · rw [reconstruct_path, List.head?_reverse]
    exact hlast
  · rw [reconstruct_path, List.getLast?_reverse, hh, hcg]
  · rw [reconstruct_path, List.length_reverse]
    have hne := chainAux_ne_nil (cf.length + 1) cf c
    exact Nat.one_le_iff_ne_zero.mpr (fun h0 => hne (List.length_eq_zero.mp h0))
  · rw [reconstruct_path, List.length_reverse, hcg]
    exact hone.trans eq_comm

/-- A `PathFound` outcome of one `step` from any state satisfying the
reachability invariant carries a path that begins at `start`, ends at
`goal`, has length at least 1, and has length exactly 1 iff
`start = goal`. -/
theorem found_path_shape (alg : Algorithm) (start goal : Position) (r : RunState)
    (hinv : ReachInv alg start r) (hrun : r.status = RunStatus.running)
    (path : List Position)
    (hfound : (runStep1 alg goal r).status = RunStatus.foundPath path) :
    path.head? = some start ∧ path.getLast? = some goal ∧ 1 ≤ path.length ∧
      (path.length = 1 ↔ start = goal) := by
  rw [runStep1_running_eq alg goal r hrun] at hfound
  cases alg with
  | Bfs =>
    simp only [step] at hfound
    cases hq : r.s.bfs_queue with
    | nil =>
      rw [step_bfs_nil _ _ _ hq] at hfound
      have h' : RunStatus.noPath = RunStatus.foundPath path := hfound
      cases h'
    | cons c rest =>
      by_cases hgoal : c = goal
      · rw [step_bfs_cons_found _ _ _ _ _ hq hgoal] at hfound
        have h' : RunStatus.foundPath (reconstruct_path r.s.came_from c) =
            RunStatus.foundPath path := hfound
        injection h' with hpath
        have hckey : c = start ∨ (alookup r.s.came_from c).isSome = true :=
          hinv.frontier_key c (by
            show c ∈ r.s.bfs_queue
            rw [hq]
            exact List.mem_cons_self _ _)
        rw [← hpath]
        exact recon_shape start goal c _ _ hinv.cf_wf hinv.closed_nodup hckey hgoal
      · rw [step_bfs_cons_continue _ _ _ _ _ hq hgoal] at hfound
        have h' : RunStatus.running = RunStatus.foundPath path := hfound
        cases h'
  | Dfs =>
    simp only [step] at hfound
    cases hq : r.s.dfs_stack.getLast? with
    | none =>
      rw [step_dfs_nil _ _ _ hq] at hfound
      have h' : RunStatus.noPath = RunStatus.foundPath path := hfound
      cases h'
    | some c =>
      by_cases hgoal : c = goal
      · rw [step_dfs_cons_found _ _ _ _ hq hgoal] at hfound
        have h' : RunStatus.foundPath (reconstruct_path r.s.came_from c) =
            RunStatus.foundPath path := hfound
        injection h' with hpath
        have hckey : c = start ∨ (alookup r.s.came_from c).isSome = true :=
          hinv.frontier_key c (by
            show c ∈ r.s.dfs_stack
            obtain ⟨ys, hys⟩ := List.getLast?_eq_some_iff.mp hq
            rw [hys]
            exact List.mem_append.mpr (Or.inr (List.mem_singleton_self c)))
        rw [← hpath]
        exact recon_shape start goal c _ _ hinv.cf_wf hinv.closed_nodup hckey hgoal
      · rw [step_dfs_cons_continue _ _ _ _ hq hgoal] at hfound
        have h' : RunStatus.running = RunStatus.foundPath path := hfound
        cases h'
  | AStar =>
    simp only [step] at hfound
    cases hpop : heapPopMax r.s.open_set with
    | none =>
      rw [step_astar_nil _ _ _ hpop] at hfound
      have h' : RunStatus.noPath = RunStatus.foundPath path := hfound
      cases h'
    | some pr =>
      rcases pr with ⟨cur, rest⟩
      by_cases hgoal : cur.position = goal
      · rw [step_astar_pop_found _ _ _ _ _ hpop hgoal] at hfound
        have h' : RunStatus.foundPath (reconstruct_path r.s.came_from cur.position) =
            RunStatus.foundPath path := hfound
        injection h' with hpath
        have hckey : cur.position = start ∨
            (alookup r.s.came_from cur.position).isSome = true :=
          hinv.frontier_key cur.position (by
            show cur.position ∈ r.s.open_set.map Node.position
            exact List.mem_map.mpr ⟨cur, (heapPopMax_mem _ _ _ hpop).1, rfl⟩)
        rw [← hpath]
        exact recon_shape start goal cur.position _ _ hinv.cf_wf hinv.closed_nodup
          hckey hgoal
      · rw [step_astar_pop_continue _ _ _ _ _ hpop hgoal] at hfound
        have h' : RunStatus.running = RunStatus.foundPath path := hfound
        cases h'

/-- C9: whenever a `step` of any algorithm turns a still-running run
initialized with `(start, goal)` into `PathFound path`, the path begins
with `start`, ends with `goal`, has length at least 1, and has length
exactly 1 iff `start = goal`; moreover when `start = goal` the very first
`step` after `initialize` already returns `PathFound [start]`. -/
theorem c9_pathfound_path_shape (alg : Algorithm) (start goal : Position)
    (grid : Grid) (k : Nat) (path : List Position)
    (hrun : (runSteps alg goal k (initRunState alg start goal grid)).status =
      RunStatus.running)
    (hfound : (runStep1 alg goal
        (runSteps alg goal k (initRunState alg start goal grid))).status =
      RunStatus.foundPath path) :
    (path.head? = some start ∧ path.getLast? = some goal ∧ 1 ≤ path.length ∧
      (path.length = 1 ↔ start = goal)) ∧
    (start = goal →
      (runStep1 alg goal (initRunState alg start goal grid)).status =
        RunStatus.foundPath [start]) := by
  refine ⟨found_path_shape alg start goal _
    (reach_run_inv alg start goal grid k) hrun path hfound, ?_⟩
  intro hsg
  cases alg with
  | Bfs =>
    rw [runStep1_running_eq _ _ _ rfl]
    simp only [step]
    dsimp only [initRunState]
    rw [step_bfs_cons_found (initRun Algorithm.Bfs start goal) goal grid
      start [] rfl hsg]
    rfl
  | Dfs =>
    rw [runStep1_running_eq _ _ _ rfl]
    simp only [step]
    dsimp only [initRunState]
    rw [step_dfs_cons_found (initRun Algorithm.Dfs start goal) goal grid
      start rfl hsg]
    rfl
  | AStar =>
    rw [runStep1_running_eq _ _ _ rfl]
    simp only [step]
    dsimp only [initRunState]
    rw [step_astar_pop_found (initRun Algorithm.AStar start goal) goal grid
      ⟨start, 0, start.manhattan_distance_to goal⟩ [] rfl hsg]
    rfl

/-! ## BFS optimality: the breadth-first level invariant -/

/-- The recorded breadth-first distance of a position (`g_costs` lookup,
defaulting to 0 exactly as the engine's `unwrap_or(0)` reads do). -/
def gOf (gc : List (Position × Int)) (p : Position) : Int :=
  (alookup gc p).getD 0

theorem mem_setInsert_elim (l : List Position) (c p : Position)
    (h : p ∈ setInsert l c) : p ∈ l ∨ p = c := by
  unfold setInsert at h
  by_cases hc : c ∈ l
  · rw [if_pos hc] at h
    exact Or.inl h
  · rw [if_neg hc] at h
    rcases List.mem_append.mp h with h' | h'
    · exact Or.inl h'
    · exact Or.inr (List.mem_singleton.mp h')

/-- Membership in `get_walkable_neighbors` is exactly adjacency plus
walkability. -/
theorem Grid.mem_get_walkable_neighbors (g : Grid) (p n : Position) :
    n ∈ g.get_walkable_neighbors p ↔ n ∈ p.neighbors ∧ g.is_walkable n = true := by
  unfold Grid.get_walkable_neighbors
  rw [List.mem_filter]

/-- The pop-time repaint (`mark_previous_node_as_visited` then
`mark_current`) never changes walkability, provided the repainted cells are
themselves walkable (they are: only popped cells are repainted). -/
theorem markStep_walk (prev : Option Position) (cur : Position) (grid : Grid)
    (hcur : grid.is_walkable cur = true)
    (hprev : ∀ q, prev = some q → grid.is_walkable q = true)
    (p : Position) : (markStep prev cur grid).is_walkable p = grid.is_walkable p := by
  unfold markStep
  cases prev with
  | none => exact Grid.walk_mark_current _ _ hcur _
  | some q =>
    rw [Grid.walk_mark_current, Grid.walk_mark_previous _ _ (hprev q rfl)]
    rw [Grid.walk_mark_previous _ _ (hprev q rfl)]
    exact hcur

/-- Appending one adjacent element to the end of a consecutively-adjacent
list keeps it consecutively adjacent. -/
theorem consecAdj_append_singleton (l : List Position) (p k : Position)
    (hl : consecAdj l) (hlast : l.getLast? = some p) (hadj : adjacent p k) :
    consecAdj (l ++ [k]) := by
  induction l with
  | nil => cases hlast
  | cons a t ih =>
    cases t with
    | nil =>
      rw [List.getLast?_singleton] at hlast
      cases hlast
      exact ⟨hadj, trivial⟩
    | cons b t' =>
      rw [List.getLast?_cons_cons] at hlast
      exact ⟨hl.1, ih hl.2 hlast⟩

theorem alookup_cons_ne {β : Type} (n : Position) (v : β)
    (l : List (Position × β)) (p : Position) (hne : n ≠ p) :
    alookup ((n, v) :: l) p = alookup l p := by
  rw [alookup_cons, if_neg hne]

theorem gOf_cons_self (n : Position) (v : Int) (gc : List (Position × Int)) :
    gOf ((n, v) :: gc) n = v := by
  unfold gOf
  rw [alookup_cons, if_pos rfl]
  rfl

theorem gOf_cons_ne (n : Position) (v : Int) (gc : List (Position × Int))
    (p : Position) (hne : n ≠ p) : gOf ((n, v) :: gc) p = gOf gc p := by
  unfold gOf
  rw [alookup_cons_ne n v gc p hne]

theorem gOf_eq_of_lookup (gc : List (Position × Int)) (p : Position) (v : Int)
    (h : alookup gc p = some v) : gOf gc p = v := by
  unfold gOf
  rw [h]
  rfl

/-- The breadth-first level invariant a BFS run maintains while running:
`g_costs` records one more than the parent's level along every `came_from`
edge, every edge is between adjacent walkable cells, discovered positions
(start or back-pointered) are closed or queued, queue levels are
non-decreasing and span at most two consecutive values, closed levels never
exceed queue levels, and every walkable neighbor of a closed cell is
discovered at most one level deeper (the cut property). -/
structure BfsOpt (grid0 : Grid) (start : Position) (r : RunState) : Prop where
  frame : ∀ p, r.grid.is_walkable p = grid0.is_walkable p
  gkeys : ∀ p, (alookup r.s.g_costs p).isSome = true ↔
    (p = start ∨ (alookup r.s.came_from p).isSome = true)
  gstart : alookup r.s.g_costs start = some 0
  edge : ∀ k p, alookup r.s.came_from k = some p →
    adjacent p k ∧ grid0.is_walkable k = true ∧
      gOf r.s.g_costs k = gOf r.s.g_costs p + 1
  disc_mem : ∀ p, (p = start ∨ (alookup r.s.came_from p).isSome = true) →
    p ∈ r.s.closed_set ∨ p ∈ r.s.bfs_queue
  qsorted : r.s.bfs_queue.Pairwise
    (fun p q => gOf r.s.g_costs p ≤ gOf r.s.g_costs q)
  qband : ∀ p ∈ r.s.bfs_queue, ∀ q ∈ r.s.bfs_queue,
    gOf r.s.g_costs q ≤ gOf r.s.g_costs p + 1
  closed_le : ∀ c ∈ r.s.closed_set, ∀ p ∈ r.s.bfs_queue,
    gOf r.s.g_costs c ≤ gOf r.s.g_costs p
  cut : ∀ c ∈ r.s.closed_set, ∀ n, adjacent c n → grid0.is_walkable n = true →
    (n = start ∨ (alookup r.s.came_from n).isSome = true) ∧
      gOf r.s.g_costs n ≤ gOf r.s.g_costs c + 1

/-- `bfsLoop` on an already-seen neighbor: only `last_neighbors` changes. -/
theorem bfsLoop_seen (c : Position) (g : Int) (n : Position)
    (rest : List Position) (s : PathfindingState) (grid : Grid)
    (h : n ∈ s.closed_set ∨ (alookup s.came_from n).isSome = true) :
    bfsLoop c g (n :: rest) s grid =
      bfsLoop c g rest
        { s with last_neighbors := s.last_neighbors ++
            [⟨n, none, none, none, "skip: already seen"⟩] } grid := by
  conv_lhs => unfold bfsLoop
  rw [if_pos h]

/-- `bfsLoop` on a fresh neighbor: record the back-pointer and level,
enqueue, and mark the frontier cell. -/
theorem bfsLoop_fresh (c : Position) (g : Int) (n : Position)
    (rest : List Position) (s : PathfindingState) (grid : Grid)
    (h : ¬ (n ∈ s.closed_set ∨ (alookup s.came_from n).isSome = true)) :
    bfsLoop c g (n :: rest) s grid =
      bfsLoop c g rest
        { s with
          came_from := (n, c) :: s.came_from,
          g_costs := (n, g + 1) :: s.g_costs,
          bfs_queue := s.bfs_queue ++ [n],
          last_neighbors := s.last_neighbors ++
            [⟨n, some (g + 1), none, none, "enqueue"⟩] }
        (grid.mark_frontier [n] none none) := by
  conv_lhs => unfold bfsLoop
  rw [if_neg h]

/-- Transfer of the breadth-first level facts through the BFS neighbor
loop.  `c` is the just-closed popped cell of level `g`; `ns` the remaining
walkable neighbors of `c`; the partial cut hypothesis excuses exactly the
pairs `(c, n)` with `n` still unprocessed. -/
theorem bfsLoop_opt (grid0 : Grid) (start c : Position) (g : Int)
    (ns : List Position) (s : PathfindingState) (grid : Grid)
    (hgrid : ∀ p, grid.is_walkable p = grid0.is_walkable p)
    (hns : ∀ n ∈ ns, adjacent c n ∧ grid0.is_walkable n = true)
    (hgc : alookup s.g_costs c = some g)
    (hcc : c ∈ s.closed_set)
    (hstartc : start ∈ s.closed_set)
    (hckey : ∀ k ∈ s.closed_set, k = start ∨ (alookup s.came_from k).isSome = true)
    (hcfval : ∀ k p, alookup s.came_from k = some p → p ∈ s.closed_set)
    (hqkey : ∀ p ∈ s.bfs_queue, p = start ∨ (alookup s.came_from p).isSome = true)
    (hgkeys : ∀ p, (alookup s.g_costs p).isSome = true ↔
      (p = start ∨ (alookup s.came_from p).isSome = true))
    (hgstart : alookup s.g_costs start = some 0)
    (hedge : ∀ k p, alookup s.came_from k = some p →
      adjacent p k ∧ grid0.is_walkable k = true ∧
        gOf s.g_costs k = gOf s.g_costs p + 1)
    (hdisc : ∀ p, (p = start ∨ (alookup s.came_from p).isSome = true) →
      p ∈ s.closed_set ∨ p ∈ s.bfs_queue)
    (hsort : s.bfs_queue.Pairwise (fun p q => gOf s.g_costs p ≤ gOf s.g_costs q))
    (hub : ∀ q ∈ s.bfs_queue, gOf s.g_costs q ≤ g + 1)
    (hlb : ∀ q ∈ s.bfs_queue, g ≤ gOf s.g_costs q)
    (hclb : ∀ k ∈ s.closed_set, gOf s.g_costs k ≤ g)
    (hpcut : ∀ k ∈ s.closed_set, ∀ n, adjacent k n → grid0.is_walkable n = true →
      (k = c ∧ n ∈ ns) ∨
      ((n = start ∨ (alookup s.came_from n).isSome = true) ∧
        gOf s.g_costs n ≤ gOf s.g_costs k + 1)) :
    (bfsLoop c g ns s grid).1.closed_set = s.closed_set ∧
    (∀ p, (bfsLoop c g ns s grid).2.is_walkable p = grid0.is_walkable p) ∧
    (∀ p, (alookup (bfsLoop c g ns s grid).1.g_costs p).isSome = true ↔
      (p = start ∨ (alookup (bfsLoop c g ns s grid).1.came_from p).isSome = true)) ∧
    alookup (bfsLoop c g ns s grid).1.g_costs start = some 0 ∧
    (∀ k p, alookup (bfsLoop c g ns s grid).1.came_from k = some p →
      adjacent p k ∧ grid0.is_walkable k = true ∧
        gOf (bfsLoop c g ns s grid).1.g_costs k =
          gOf (bfsLoop c g ns s grid).1.g_costs p + 1) ∧
    (∀ p, (p = start ∨
        (alookup (bfsLoop c g ns s grid).1.came_from p).isSome = true) →
      p ∈ (bfsLoop c g ns s grid).1.closed_set ∨
        p ∈ (bfsLoop c g ns s grid).1.bfs_queue) ∧
    (bfsLoop c g ns s grid).1.bfs_queue.Pairwise
      (fun p q => gOf (bfsLoop c g ns s grid).1.g_costs p ≤
        gOf (bfsLoop c g ns s grid).1.g_costs q) ∧
    (∀ q ∈ (bfsLoop c g ns s grid).1.bfs_queue,
      gOf (bfsLoop c g ns s grid).1.g_costs q ≤ g + 1) ∧
    (∀ q ∈ (bfsLoop c g ns s grid).1.bfs_queue,
      g ≤ gOf (bfsLoop c g ns s grid).1.g_costs q) ∧
    (∀ k ∈ (bfsLoop c g ns s grid).1.closed_set,
      gOf (bfsLoop c g ns s grid).1.g_costs k ≤ g) ∧
    (∀ k ∈ (bfsLoop c g ns s grid).1.closed_set, ∀ n, adjacent k n →
      grid0.is_walkable n = true →
      ((n = start ∨
          (alookup (bfsLoop c g ns s grid).1.came_from n).isSome = true) ∧
        gOf (bfsLoop c g ns s grid).1.g_costs n ≤
          gOf (bfsLoop c g ns s grid).1.g_costs k + 1)) := by
  induction ns generalizing s grid with
  | nil =>
    refine ⟨rfl, hgrid, hgkeys, hgstart, hedge, hdisc, hsort, hub, hlb, hclb, ?_⟩
    intro k hk n hadj hw
    rcases hpcut k hk n hadj hw with ⟨-, hm⟩ | hold
    · exact absurd hm (List.not_mem_nil n)
    · exact hold
  | cons n rest' ih =>
    by_cases hseen : n ∈ s.closed_set ∨ (alookup s.came_from n).isSome = true
    · rw [bfsLoop_seen c g n rest' s grid hseen]
      refine ih _ _ hgrid (fun m hm => hns m (List.mem_cons_of_mem n hm)) hgc hcc
        hstartc hckey hcfval hqkey hgkeys hgstart hedge hdisc hsort hub hlb hclb ?_
      dsimp only
      intro k hk m hadj hw
      rcases hpcut k hk m hadj hw with ⟨hkc, hm⟩ | hold
      · rcases List.mem_cons.mp hm with hm1 | hm2
        · rw [hm1, hkc]
          refine Or.inr ⟨?_, ?_⟩
          · rcases hseen with hcl | hcf
            · exact hckey n hcl
            · exact Or.inr hcf
          · rw [gOf_eq_of_lookup s.g_costs c g hgc]
            rcases hseen with hcl | hcf
            · have := hclb n hcl
              omega
            · rcases hdisc n (Or.inr hcf) with hcl | hq
              · have := hclb n hcl
                omega
              · exact hub n hq
        · exact Or.inl ⟨hkc, hm2⟩
      · exact Or.inr hold
    · rw [bfsLoop_fresh c g n rest' s grid hseen]
      push_neg at hseen
      obtain ⟨hncl, hncf'⟩ := hseen
      have hncf : alookup s.came_from n = none := by
        cases hl : alookup s.came_from n with
        | none => rfl
        | some v => exact absurd (by simp [hl]) hncf'
      have hnstart : n ≠ start := fun h => hncl (by rw [h]; exact hstartc)
      have hnc : n ≠ c := fun h => hncl (by rw [h]; exact hcc)
      have hnq : n ∉ s.bfs_queue := by
        intro hq
        rcases hqkey n hq with h | h
        · exact hnstart h
        · rw [hncf] at h
          cases h
      have hadjn : adjacent c n := (hns n (List.mem_cons_self n rest')).1
      have hwalkn : grid0.is_walkable n = true := (hns n (List.mem_cons_self n rest')).2
      refine ih _ _ ?_ (fun m hm => hns m (List.mem_cons_of_mem n hm)) ?_ hcc
        hstartc ?_ ?_ ?_ ?_ ?_ ?_ ?_ ?_ ?_ ?_ ?_ ?_
      · intro p
        rw [Grid.walk_mark_frontier]
        exact hgrid p
      · show alookup ((n, g + 1) :: s.g_costs) c = some g
        rw [alookup_cons_ne n _ _ c hnc]
        exact hgc
      · show ∀ k ∈ s.closed_set,
          k = start ∨ (alookup ((n, c) :: s.came_from) k).isSome = true
        exact fun k hk => (hckey k hk).imp id (alookup_cons_isSome n c s.came_from k)
      · show ∀ k p, alookup ((n, c) :: s.came_from) k = some p → p ∈ s.closed_set
        intro k p hl
        rw [alookup_cons] at hl
        by_cases hkn : n = k
        · rw [if_pos hkn] at hl
          cases hl
          exact hcc
        · rw [if_neg hkn] at hl
          exact hcfval k p hl
      · show ∀ p ∈ s.bfs_queue ++ [n],
          p = start ∨ (alookup ((n, c) :: s.came_from) p).isSome = true
        intro p hp
        rcases List.mem_append.mp hp with h | h
        · exact (hqkey p h).imp id (alookup_cons_isSome n c s.came_from p)
        · rw [List.mem_singleton.mp h]
          right
          rw [alookup_cons, if_pos rfl]
          rfl
      · show ∀ p, (alookup ((n, g + 1) :: s.g_costs) p).isSome = true ↔
          (p = start ∨ (alookup ((n, c) :: s.came_from) p).isSome = true)
        intro p
        by_cases hpn : n = p
        · constructor
          · intro _
            right
            rw [alookup_cons, if_pos hpn]
            rfl
          · intro _
            rw [alookup_cons, if_pos hpn]
            rfl
        · rw [alookup_cons_ne n _ _ p hpn, alookup_cons_ne n c _ p hpn]
          exact hgkeys p
      · show alookup ((n, g + 1) :: s.g_costs) start = some 0
        rw [alookup_cons_ne n _ _ start hnstart]
        exact hgstart
      · show ∀ k p, alookup ((n, c) :: s.came_from) k = some p →
          adjacent p k ∧ grid0.is_walkable k = true ∧
            gOf ((n, g + 1) :: s.g_costs) k = gOf ((n, g + 1) :: s.g_costs) p + 1
        intro k p hl
        rw [alookup_cons] at hl
        by_cases hkn : n = k
        · rw [if_pos hkn] at hl
          cases hl
          subst hkn
          refine ⟨hadjn, hwalkn, ?_⟩
          rw [gOf_cons_self, gOf_cons_ne n _ _ c hnc,
            gOf_eq_of_lookup s.g_costs c g hgc]
        · rw [if_neg hkn] at hl
          obtain ⟨ha, hw, hg⟩ := hedge k p hl
          have hpcl : p ∈ s.closed_set := hcfval k p hl
          have hpn : n ≠ p := fun h => hncl (by rw [h]; exact hpcl)
          rw [gOf_cons_ne n _ _ k hkn, gOf_cons_ne n _ _ p hpn]
          exact ⟨ha, hw, hg⟩
      · show ∀ p, (p = start ∨ (alookup ((n, c) :: s.came_from) p).isSome = true) →
          p ∈ s.closed_set ∨ p ∈ s.bfs_queue ++ [n]
        intro p hp
        by_cases hpn : n = p
        · right
          rw [← hpn]
          exact List.mem_append.mpr (Or.inr (List.mem_singleton_self n))
        · rcases hp with rfl | hcf2
          · exact (hdisc p (Or.inl rfl)).imp id
              (fun h => List.mem_append.mpr (Or.inl h))
          · rw [alookup_cons_ne n c _ p hpn] at hcf2
            exact (hdisc p (Or.inr hcf2)).imp id
              (fun h => List.mem_append.mpr (Or.inl h))
      · show (s.bfs_queue ++ [n]).Pairwise
          (fun p q => gOf ((n, g + 1) :: s.g_costs) p ≤
            gOf ((n, g + 1) :: s.g_costs) q)
        rw [List.pairwise_append]
        refine ⟨?_, List.pairwise_singleton _ _, ?_⟩
        · refine hsort.imp_of_mem ?_
          intro a b ha hb hr
          rw [gOf_cons_ne n _ _ a (fun h => hnq (by rw [h]; exact ha)),
            gOf_cons_ne n _ _ b (fun h => hnq (by rw [h]; exact hb))]
          exact hr
        · intro a ha b hb
          rw [List.mem_singleton.mp hb]
          rw [gOf_cons_ne n _ _ a (fun h => hnq (by rw [h]; exact ha)), gOf_cons_self]
          exact hub a ha
      · show ∀ q ∈ s.bfs_queue ++ [n], gOf ((n, g + 1) :: s.g_costs) q ≤ g + 1
        intro q hq
        rcases List.mem_append.mp hq with h | h
        · rw [gOf_cons_ne n _ _ q (fun h' => hnq (by rw [h']; exact h))]
          exact hub q h
        · rw [List.mem_singleton.mp h, gOf_cons_self]
      · show ∀ q ∈ s.bfs_queue ++ [n], g ≤ gOf ((n, g + 1) :: s.g_costs) q
        intro q hq
        rcases List.mem_append.mp hq with h | h
        · rw [gOf_cons_ne n _ _ q (fun h' => hnq (by rw [h']; exact h))]
          exact hlb q h
        · rw [List.mem_singleton.mp h, gOf_cons_self]
          omega
      · show ∀ k ∈ s.closed_set, gOf ((n, g + 1) :: s.g_costs) k ≤ g
        intro k hk
        rw [gOf_cons_ne n _ _ k (fun h => hncl (by rw [h]; exact hk))]
        exact hclb k hk
      · show ∀ k ∈ s.closed_set, ∀ m, adjacent k m → grid0.is_walkable m = true →
          (k = c ∧ m ∈ rest') ∨
          ((m = start ∨ (alookup ((n, c) :: s.came_from) m).isSome = true) ∧
            gOf ((n, g + 1) :: s.g_costs) m ≤ gOf ((n, g + 1) :: s.g_costs) k + 1)
        intro k hk m hadj hw
        rcases hpcut k hk m hadj hw with ⟨hkc, hm⟩ | ⟨hdm, hbm⟩
        · rcases List.mem_cons.mp hm with hm1 | hm2
          · rw [hm1, hkc]
            refine Or.inr ⟨?_, ?_⟩
            · right
              rw [alookup_cons, if_pos rfl]
              rfl
            · rw [gOf_cons_self, gOf_cons_ne n _ _ c hnc,
                gOf_eq_of_lookup s.g_costs c g hgc]
          · exact Or.inl ⟨hkc, hm2⟩
        · by_cases hmn : m = n
          · exfalso
            rcases hdm with h | h
            · rw [hmn] at h
              exact hnstart h
            · rw [hmn, hncf] at h
              cases h
          · have hnm : n ≠ m := fun h => hmn h.symm
            have hkn : n ≠ k := fun h => hncl (by rw [h]; exact hk)
            refine Or.inr ⟨hdm.imp id (alookup_cons_isSome n c s.came_from m), ?_⟩
            rw [gOf_cons_ne n _ _ m hnm, gOf_cons_ne n _ _ k hkn]
            exact hbm

/-- One running-to-running BFS step preserves the breadth-first level
invariant. -/
theorem bfs_opt_step (grid0 : Grid) (start goal : Position) (r : RunState)
    (hO : BfsOpt grid0 start r)
    (hR : ReachInv Algorithm.Bfs start r)
    (hT : BfsTermInv grid0 r)
    (hrun : r.status = RunStatus.running)
    (hrun' : (runStep1 Algorithm.Bfs goal r).status = RunStatus.running) :
    BfsOpt grid0 start (runStep1 Algorithm.Bfs goal r) := by
  rw [runStep1_running_eq _ _ _ hrun] at hrun' ⊢
  simp only [step] at hrun' ⊢
  cases hq : r.s.bfs_queue with
  | nil =>
    rw [step_bfs_nil _ _ _ hq] at hrun'
    have h' : RunStatus.noPath = RunStatus.running := hrun'
    cases h'
  | cons c rest =>
    by_cases hgoal : c = goal
    · rw [step_bfs_cons_found _ _ _ _ _ hq hgoal] at hrun'
      have h' : RunStatus.foundPath (reconstruct_path r.s.came_from c) =
          RunStatus.running := hrun'
      cases h'
    · rw [step_bfs_cons_continue _ _ _ _ _ hq hgoal]
      have hcq : c ∈ r.s.bfs_queue := by
        rw [hq]
        exact List.mem_cons_self _ _
      have hck : c = start ∨ (alookup r.s.came_from c).isSome = true :=
        hR.frontier_key c hcq
      have hgsome : (alookup r.s.g_costs c).isSome = true := (hO.gkeys c).mpr hck
      cases hl : alookup r.s.g_costs c with
      | none =>
        rw [hl] at hgsome
        cases hgsome
      | some v =>
      simp only [Option.getD_some]
      have hgofc : gOf r.s.g_costs c = v := gOf_eq_of_lookup _ _ _ hl
      have hgD : (alookup r.s.g_costs c).getD 0 = v := by
        rw [hl]
        rfl
      have hcwalkr : r.grid.is_walkable c = true := by
        rw [hO.frame]
        exact hT.q_walk c hcq
      have hgrid1 : ∀ p,
          (markStep r.s.previous_node c r.grid).is_walkable p =
            grid0.is_walkable p := by
        intro p
        rw [markStep_walk _ _ _ hcwalkr ?_]
        · exact hO.frame p
        · intro q hqq
          rw [hO.frame]
          exact hT.prev_walk q hqq
      have hstart1 : start ∈ setInsert r.s.closed_set c := by
        rcases hR.start_closed with h | h
        · exact mem_setInsert_of_mem _ _ _ h
        · have h' : r.s.bfs_queue = [start] := h
          rw [hq] at h'
          cases h'
          exact self_mem_setInsert _ _
      obtain ⟨hcl', hfr', hgk', hgs', hed', hdm', hsrt', hub', hlb', hclb', hcut'⟩ :=
        bfsLoop_opt grid0 start c v
          ((markStep r.s.previous_node c r.grid).get_walkable_neighbors c)
          (bfsPopState r.s c rest) (markStep r.s.previous_node c r.grid)
          hgrid1
          (fun n hn => by
            obtain ⟨hadj, hw⟩ :=
              (Grid.mem_get_walkable_neighbors _ _ _).mp hn
            exact ⟨hadj, by rw [← hgrid1 n]; exact hw⟩)
          (by
            show alookup r.s.g_costs c = some v
            exact hl)
          (self_mem_setInsert _ _)
          hstart1
          (by
            show ∀ k ∈ setInsert r.s.closed_set c,
              k = start ∨ (alookup r.s.came_from k).isSome = true
            intro k hk
            by_cases hks : k = start
            · exact Or.inl hks
            · rcases mem_setInsert_elim _ _ _ hk with h | h
              · exact Or.inr (hR.cf_wf.2.2 k h hks)
              · rw [h]
                exact hck)
          (by
            show ∀ k p, alookup r.s.came_from k = some p →
              p ∈ setInsert r.s.closed_set c
            intro k p hlk
            exact mem_setInsert_of_mem _ _ _ (hR.cf_wf.1 k p hlk).1)
          (by
            show ∀ p ∈ rest, p = start ∨ (alookup r.s.came_from p).isSome = true
            intro p hp
            exact hR.frontier_key p (by
              show p ∈ r.s.bfs_queue
              rw [hq]
              exact List.mem_cons_of_mem c hp))
          hO.gkeys
          hO.gstart
          hO.edge
          (by
            show ∀ p, (p = start ∨ (alookup r.s.came_from p).isSome = true) →
              p ∈ setInsert r.s.closed_set c ∨ p ∈ rest
            intro p hp
            rcases hO.disc_mem p hp with h | h
            · exact Or.inl (mem_setInsert_of_mem _ _ _ h)
            · rw [hq] at h
              rcases List.mem_cons.mp h with h' | h'
              · rw [h']
                exact Or.inl (self_mem_setInsert _ _)
              · exact Or.inr h')
          (by
            show rest.Pairwise (fun p q => gOf r.s.g_costs p ≤ gOf r.s.g_costs q)
            have := hO.qsorted
            rw [hq] at this
            exact (List.pairwise_cons.mp this).2)
          (by
            show ∀ q ∈ rest, gOf r.s.g_costs q ≤ v + 1
            intro q hq'
            have := hO.qband c hcq q (by rw [hq]; exact List.mem_cons_of_mem c hq')
            rw [hgofc] at this
            exact this)
          (by
            show ∀ q ∈ rest, v ≤ gOf r.s.g_costs q
            intro q hq'
            have := hO.qsorted
            rw [hq] at this
            have := (List.pairwise_cons.mp this).1 q hq'
            rw [hgofc] at this
            exact this)
          (by
            show ∀ k ∈ setInsert r.s.closed_set c, gOf r.s.g_costs k ≤ v
            intro k hk
            rcases mem_setInsert_elim _ _ _ hk with h | h
            · have := hO.closed_le k h c hcq
              rw [hgofc] at this
              exact this
            · rw [h, hgofc])
          (by
            show ∀ k ∈ setInsert r.s.closed_set c, ∀ n, adjacent k n →
              grid0.is_walkable n = true →
              (k = c ∧ n ∈ (markStep r.s.previous_node c r.grid).get_walkable_neighbors c) ∨
              ((n = start ∨ (alookup r.s.came_from n).isSome = true) ∧
                gOf r.s.g_costs n ≤ gOf r.s.g_costs k + 1)
            intro k hk n hadj hw
            rcases mem_setInsert_elim _ _ _ hk with h | h
            · exact Or.inr (hO.cut k h n hadj hw)
            · refine Or.inl ⟨h, ?_⟩
              refine (Grid.mem_get_walkable_neighbors _ _ _).mpr ⟨?_, ?_⟩
              · rw [← h]
                exact hadj
              · rw [hgrid1 n]
                exact hw)
      refine ⟨?_, hgk', hgs', hed', hdm', hsrt', ?_, ?_, hcut'⟩
      · intro p
        rw [Grid.walk_mark_visited]
        exact hfr' p
      · dsimp only
        intro p hp q hq'
        have h1 := hub' q hq'
        have h2 := hlb' p hp
        omega
      · dsimp only
        intro k hk p hp
        have h1 := hclb' k hk
        have h2 := hlb' p hp
        omega

/-- The BFS neighbor loop never touches the closed set. -/
theorem bfsLoop_closed (c : Position) (g : Int) (ns : List Position)
    (s : PathfindingState) (grid : Grid) :
    (bfsLoop c g ns s grid).1.closed_set = s.closed_set := by
  induction ns generalizing s grid with
  | nil => rfl
  | cons n rest ih =>
    by_cases hseen : n ∈ s.closed_set ∨ (alookup s.came_from n).isSome = true
    · rw [bfsLoop_seen c g n rest s grid hseen]
      exact ih _ _
    · rw [bfsLoop_fresh c g n rest s grid hseen]
      exact ih _ _

/-- The breadth-first level invariant holds at every still-running point of
a BFS run. -/
theorem bfs_opt_run (grid0 : Grid) (start goal : Position)
    (hstart : grid0.is_walkable start = true) (k : Nat)
    (hrun : (runSteps Algorithm.Bfs goal k
      (initRunState Algorithm.Bfs start goal grid0)).status = RunStatus.running) :
    BfsOpt grid0 start (runSteps Algorithm.Bfs goal k
      (initRunState Algorithm.Bfs start goal grid0)) := by
  induction k with
  | zero =>
    rw [show runSteps Algorithm.Bfs goal 0 (initRunState Algorithm.Bfs start goal grid0) =
      initRunState Algorithm.Bfs start goal grid0 from rfl]
    refine ⟨fun p => rfl, ?_, ?_, ?_, ?_, ?_, ?_, ?_, ?_⟩
    · intro p
      constructor
      · intro hs
        by_cases h : start = p
        · exact Or.inl h.symm
        · rw [show (initRunState Algorithm.Bfs start goal grid0).s.g_costs =
              [(start, 0)] from rfl, alookup_cons, if_neg h] at hs
          simp [alookup] at hs
      · intro h
        rcases h with rfl | h
        · rw [show (initRunState Algorithm.Bfs p goal grid0).s.g_costs =
              [(p, 0)] from rfl, alookup_cons, if_pos rfl]
          rfl
        · simp [alookup] at h
    · rw [show (initRunState Algorithm.Bfs start goal grid0).s.g_costs =
          [(start, 0)] from rfl, alookup_cons, if_pos rfl]
    · intro k p hl
      simp [alookup] at hl
    · intro p hp
      rcases hp with rfl | h
      · right
        exact List.mem_singleton_self p
      · simp [alookup] at h
    · exact List.pairwise_singleton _ _
    · intro p hp q hq
      rw [List.mem_singleton.mp hp] at *
      rw [List.mem_singleton.mp hq]
      omega
    · intro k hk
      exact absurd hk (List.not_mem_nil k)
    · intro k hk
      exact absurd hk (List.not_mem_nil k)
  | succ k ih =>
    rw [runSteps_succ_right] at hrun ⊢
    have hrj : (runSteps Algorithm.Bfs goal k
        (initRunState Algorithm.Bfs start goal grid0)).status = RunStatus.running := by
      by_contra hc
      rw [runStep1_of_terminal _ _ _ hc] at hrun
      exact hc hrun
    exact bfs_opt_step grid0 start goal _ (ih hrj)
      (reach_run_inv Algorithm.Bfs start goal grid0 k)
      (bfs_run_inv grid0 start goal hstart k hrj).1 hrj hrun

/-- While a BFS run is still running, the goal has never been popped. -/
theorem bfs_goal_not_closed (grid0 : Grid) (start goal : Position) (k : Nat)
    (hrun : (runSteps Algorithm.Bfs goal k
      (initRunState Algorithm.Bfs start goal grid0)).status = RunStatus.running) :
    goal ∉ (runSteps Algorithm.Bfs goal k
      (initRunState Algorithm.Bfs start goal grid0)).s.closed_set := by
  induction k with
  | zero => exact List.not_mem_nil goal
  | succ k ih =>
    rw [runSteps_succ_right] at hrun ⊢
    have hrj : (runSteps Algorithm.Bfs goal k
        (initRunState Algorithm.Bfs start goal grid0)).status = RunStatus.running := by
      by_contra hc
      rw [runStep1_of_terminal _ _ _ hc] at hrun
      exact hc hrun
    specialize ih hrj
    rw [runStep1_running_eq _ _ _ hrj] at hrun ⊢
    simp only [step] at hrun ⊢
    cases hq : (runSteps Algorithm.Bfs goal k
        (initRunState Algorithm.Bfs start goal grid0)).s.bfs_queue with
    | nil =>
      rw [step_bfs_nil _ _ _ hq] at hrun
      have h' : RunStatus.noPath = RunStatus.running := hrun
      cases h'
    | cons c rest =>
      by_cases hgoal : c = goal
      · rw [step_bfs_cons_found _ _ _ _ _ hq hgoal] at hrun
        have h' : RunStatus.foundPath _ = RunStatus.running := hrun
        cases h'
      · rw [step_bfs_cons_continue _ _ _ _ _ hq hgoal]
        show goal ∉ (bfsLoop _ _ _ _ _).1.closed_set
        rw [bfsLoop_closed]
        intro hc
        rcases mem_setInsert_elim _ _ _ hc with h | h
        · exact ih h
        · exact hgoal h.symm

theorem mem_of_head_some (l : List Position) (a : Position)
    (h : l.head? = some a) : a ∈ l := by
  cases l with
  | nil => cases h
  | cons x t =>
    have h' : some x = some a := h
    injection h' with h''
    rw [← h'']
    exact List.mem_cons_self _ _

theorem mem_of_getLast_some (l : List Position) (a : Position)
    (h : l.getLast? = some a) : a ∈ l := by
  obtain ⟨ys, hys⟩ := List.getLast?_eq_some_iff.mp h
  rw [hys]
  exact List.mem_append.mpr (Or.inr (List.mem_singleton_self a))

theorem head_append_of_some {α : Type} (l l' : List α) (a : α)
    (h : l.head? = some a) : (l ++ l').head? = some a := by
  cases l with
  | nil => cases h
  | cons x t => exact h

/-- Under back-pointer well-formedness with the adjacency/level payload of
`BfsOpt`, the reversed parent chain from any closed position is a walkable
path from `start`, of length one more than its recorded level. -/
theorem chain_path (grid0 : Grid) (start : Position)
    (cf : List (Position × Position)) (gc : List (Position × Int))
    (closed : List Position)
    (hwf : CFWF start cf closed)
    (hedge : ∀ k p, alookup cf k = some p →
      adjacent p k ∧ grid0.is_walkable k = true ∧ gOf gc k = gOf gc p + 1)
    (hgstart : alookup gc start = some 0)
    (hsw : grid0.is_walkable start = true) :
    ∀ fuel, ∀ k ∈ closed, closed.indexOf k < fuel →
      grid0.isPath start k (chainAux fuel cf k).reverse ∧
      ((chainAux fuel cf k).length : Int) = gOf gc k + 1 := by
  intro fuel
  induction fuel with
  | zero => exact fun k _ hidx => absurd hidx (Nat.not_lt_zero _)
  | succ f ih =>
    intro k hk hidx
    cases hl : alookup cf k with
    | none =>
      have hks : k = start := by
        by_contra hne
        have := hwf.2.2 k hk hne
        rw [hl] at this
        cases this
      have hchain : chainAux (f + 1) cf k = [k] := by
        conv_lhs => unfold chainAux
        rw [hl]
      rw [hchain]
      subst hks
      refine ⟨⟨rfl, rfl, ?_, trivial⟩, ?_⟩
      · intro p hp
        rw [List.mem_reverse, List.mem_singleton] at hp
        rw [hp]
        exact hsw
      · rw [gOf_eq_of_lookup gc k 0 hgstart]
        rfl
    | some p =>
      obtain ⟨hpc, hord⟩ := hwf.1 k p hl
      have hidxp : closed.indexOf p < f :=
        lt_of_lt_of_le (hord hk) (Nat.lt_succ_iff.mp hidx)
      obtain ⟨⟨hh, hlast, hwk, hadjs⟩, hlen⟩ := ih p hpc hidxp
      obtain ⟨hadj, hwalk, hg⟩ := hedge k p hl
      have hchain : chainAux (f + 1) cf k = k :: chainAux f cf p := by
        conv_lhs => unfold chainAux
        rw [hl]
      rw [hchain]
      rw [List.reverse_cons]
      refine ⟨⟨?_, ?_, ?_, ?_⟩, ?_⟩
      · exact head_append_of_some _ _ _ hh
      · rw [List.getLast?_concat]
      · intro q hq
        rcases List.mem_append.mp hq with h | h
        · exact hwk q h
        · rw [List.mem_singleton.mp h]
          exact hwalk
      · exact consecAdj_append_singleton _ p k hadjs hlast hadj
      · simp only [List.length_cons]
        push_cast
        omega

/-- With an empty queue, the closed set absorbs every walkable path that
starts inside it. -/
theorem bfs_closure (grid0 : Grid) (start : Position) (s : PathfindingState)
    (hqe : s.bfs_queue = [])
    (hdisc : ∀ p, (p = start ∨ (alookup s.came_from p).isSome = true) →
      p ∈ s.closed_set ∨ p ∈ s.bfs_queue)
    (hcutd : ∀ k ∈ s.closed_set, ∀ n, adjacent k n →
      grid0.is_walkable n = true →
      (n = start ∨ (alookup s.came_from n).isSome = true)) :
    ∀ l, consecAdj l → (∀ p ∈ l, grid0.is_walkable p = true) →
      ∀ a, l.head? = some a → a ∈ s.closed_set → ∀ b ∈ l, b ∈ s.closed_set := by
  intro l
  induction l with
  | nil => exact fun _ _ a _ _ b hb => absurd hb (List.not_mem_nil b)
  | cons x t ih =>
    intro hca hw a hh ha b hb
    have hxa : x = a := by
      have h' : some x = some a := hh
      injection h'
    cases t with
    | nil =>
      rw [List.mem_singleton.mp hb, hxa]
      exact ha
    | cons y t' =>
      have hadj : adjacent x y := hca.1
      have hyw : grid0.is_walkable y = true :=
        hw y (List.mem_cons_of_mem x (List.mem_cons_self y t'))
      have hyd := hcutd x (hxa ▸ ha) y hadj hyw
      have hyc : y ∈ s.closed_set := by
        rcases hdisc y hyd with h | h
        · exact h
        · rw [hqe] at h
          exact absurd h (List.not_mem_nil y)
      rcases List.mem_cons.mp hb with h | h
      · rw [h, hxa]
        exact ha
      · exact ih hca.2 (fun p hp => hw p (List.mem_cons_of_mem x hp)) y rfl hyc b h

/-- Queue-head minimality along any walkable path whose tail end is the
goal: the goal's recorded level is at most the path's edge count plus the
level bound of the path's (closed) head. -/
theorem bfs_path_g_bound (grid0 : Grid) (start goal : Position) (s : PathfindingState)
    (hdisc : ∀ p, (p = start ∨ (alookup s.came_from p).isSome = true) →
      p ∈ s.closed_set ∨ p ∈ s.bfs_queue)
    (hcut : ∀ k ∈ s.closed_set, ∀ n, adjacent k n →
      grid0.is_walkable n = true →
      (n = start ∨ (alookup s.came_from n).isSome = true) ∧
        gOf s.g_costs n ≤ gOf s.g_costs k + 1)
    (hhead : ∀ q ∈ s.bfs_queue, gOf s.g_costs goal ≤ gOf s.g_costs q) :
    ∀ l, consecAdj l → (∀ p ∈ l, grid0.is_walkable p = true) →
      ∀ a, l.head? = some a → a ∈ s.closed_set → l.getLast? = some goal →
      ∀ B : Int, gOf s.g_costs a ≤ B →
        gOf s.g_costs goal ≤ B + l.length - 1 := by
  intro l
  induction l with
  | nil => exact fun _ _ a hh => absurd hh (by intro h; cases h)
  | cons x t ih =>
    intro hca hw a hh ha hlast B hB
    have hxa : x = a := by
      have h' : some x = some a := hh
      injection h'
    cases t with
    | nil =>
      rw [List.getLast?_singleton] at hlast
      have h' : x = goal := by injection hlast
      rw [← h', hxa]
      simp only [List.length_cons, List.length_nil]
      push_cast
      omega
    | cons y t' =>
      have hadj : adjacent x y := hca.1
      have hyw : grid0.is_walkable y = true :=
        hw y (List.mem_cons_of_mem x (List.mem_cons_self y t'))
      obtain ⟨hyd, hybnd⟩ := hcut x (hxa ▸ ha) y hadj hyw
      have hyB : gOf s.g_costs y ≤ B + 1 := by
        rw [hxa] at hybnd
        omega
      rcases hdisc y hyd with hyc | hyq
      · have hrec := ih hca.2 (fun p hp => hw p (List.mem_cons_of_mem x hp)) y rfl hyc
          (by rw [← hlast, List.getLast?_cons_cons]) (B + 1) hyB
        simp only [List.length_cons] at hrec ⊢
        push_cast at hrec ⊢
        omega
      · have h1 := hhead y hyq
        simp only [List.length_cons]
        push_cast
        omega

/-- C1: whenever the four-connected walkability graph of the grid contains
a walkable path from `start` to `goal`, iterating `step` after
`initialize(Bfs, start, goal)` reaches `PathFound path` where `path` is
itself a walkable start-to-goal path of minimal length — equivalently, its
edge count `path.length - 1` equals the shortest-path edge count. -/
theorem c1_bfs_shortest_path (grid : Grid) (start goal : Position)
    (l0 : List Position) (hpath0 : grid.isPath start goal l0) :
    ∃ k path,
      (runSteps Algorithm.Bfs goal k
        (initRunState Algorithm.Bfs start goal grid)).status =
          RunStatus.foundPath path ∧
      grid.isPath start goal path ∧
      ∀ l, grid.isPath start goal l → path.length ≤ l.length := by
  obtain ⟨hh0, hlast0, hwalk0, hadj0⟩ := hpath0
  have hsw : grid.is_walkable start = true :=
    hwalk0 start (mem_of_head_some l0 start hh0)
  have hex : ∃ k, ¬ (runSteps Algorithm.Bfs goal k
      (initRunState Algorithm.Bfs start goal grid)).status = RunStatus.running := by
    refine ⟨grid.walkableCount + 1, ?_⟩
    intro hc
    obtain ⟨hinv, hlen⟩ := bfs_run_inv grid start goal hsw _ hc
    have := grid.length_le_walkableCount _ hinv.c_nodup hinv.c_walk
    omega
  have hfs := Nat.find_spec hex
  have hfmin : ∀ j, j < Nat.find hex → (runSteps Algorithm.Bfs goal j
      (initRunState Algorithm.Bfs start goal grid)).status = RunStatus.running :=
    fun j hj => not_not.mp (Nat.find_min hex hj)
  have hpos : 0 < Nat.find hex := by
    rcases Nat.eq_zero_or_pos (Nat.find hex) with h | h
    · exfalso
      rw [h] at hfs
      exact hfs rfl
    · exact h
  obtain ⟨j, hktj⟩ : ∃ j, Nat.find hex = j + 1 :=
    ⟨Nat.find hex - 1, (Nat.succ_pred_eq_of_pos hpos).symm⟩
  have hrunj := hfmin j (by omega)
  obtain ⟨R, hReq⟩ : ∃ R, R = runSteps Algorithm.Bfs goal j
      (initRunState Algorithm.Bfs start goal grid) := ⟨_, rfl⟩
  have hrunj' : R.status = RunStatus.running := by
    rw [hReq]
    exact hrunj
  have hO : BfsOpt grid start R := by
    rw [hReq]
    exact bfs_opt_run grid start goal hsw j hrunj
  have hRc : ReachInv Algorithm.Bfs start R := by
    rw [hReq]
    exact reach_run_inv Algorithm.Bfs start goal grid j
  have hnotclosed : goal ∉ R.s.closed_set := by
    rw [hReq]
    exact bfs_goal_not_closed grid start goal j hrunj
  have hterm1 : ¬ (runStep1 Algorithm.Bfs goal R).status = RunStatus.running := by
    rw [hReq, ← runSteps_succ_right, ← hktj]
    exact hfs
  rw [runStep1_running_eq _ _ _ hrunj'] at hterm1
  simp only [step] at hterm1
  cases hq : R.s.bfs_queue with
  | nil =>
    exfalso
    have hstartc : start ∈ R.s.closed_set := by
      rcases hO.disc_mem start (Or.inl rfl) with h | h
      · exact h
      · rw [hq] at h
        exact absurd h (List.not_mem_nil start)
    have hallc := bfs_closure grid start R.s hq hO.disc_mem
      (fun k hk n ha hw => (hO.cut k hk n ha hw).1) l0 hadj0 hwalk0 start hh0 hstartc
    exact hnotclosed (hallc goal (mem_of_getLast_some l0 goal hlast0))
  | cons c rest =>
    by_cases hgoal : c = goal
    · have hcq : c ∈ R.s.bfs_queue := by
        rw [hq]
        exact List.mem_cons_self _ _
      have hck : c = start ∨ (alookup R.s.came_from c).isSome = true :=
        hRc.frontier_key c hcq
      rw [hgoal] at hck
      have hwf' := pop_preserves_CFWF start goal R.s.came_from R.s.closed_set
        hRc.cf_wf hck
      have hnd' := setInsert_nodup _ goal hRc.closed_nodup
      have hgmem : goal ∈ setInsert R.s.closed_set goal := self_mem_setInsert _ _
      have hlenb := closed_length_le_cf _ R.s.came_from start hnd' hwf'.2.2
      have hidx : (setInsert R.s.closed_set goal).indexOf goal <
          R.s.came_from.length + 1 :=
        lt_of_lt_of_le (List.indexOf_lt_length.mpr hgmem) hlenb
      obtain ⟨hPath, hLen⟩ := chain_path grid start R.s.came_from R.s.g_costs _
        hwf' hO.edge hO.gstart hsw (R.s.came_from.length + 1) goal hgmem hidx
      have hLen' : ((reconstruct_path R.s.came_from goal).length : Int) =
          gOf R.s.g_costs goal + 1 := by
        show (((chainAux (R.s.came_from.length + 1) R.s.came_from goal).reverse).length
          : Int) = _
        rw [List.length_reverse]
        exact hLen
      refine ⟨Nat.find hex, reconstruct_path R.s.came_from goal, ?_, hPath, ?_⟩
      · rw [hktj, runSteps_succ_right, ← hReq]
        rw [runStep1_running_eq _ _ _ hrunj']
        simp only [step]
        rw [step_bfs_cons_found _ _ _ _ _ hq hgoal]
        rw [hgoal]
      · intro l hl
        obtain ⟨hhl, hlastl, hwl, hadjl⟩ := hl
        have hhead : ∀ q ∈ R.s.bfs_queue,
            gOf R.s.g_costs goal ≤ gOf R.s.g_costs q := by
          intro q hqm
          rw [hq] at hqm
          rcases List.mem_cons.mp hqm with h | h
          · rw [h, ← hgoal]
          · have hs := hO.qsorted
            rw [hq] at hs
            have hle := (List.pairwise_cons.mp hs).1 q h
            rw [hgoal] at hle
            exact hle
        have hbound : gOf R.s.g_costs goal ≤ (l.length : Int) - 1 := by
          rcases hRc.start_closed with hstc | hfr
          · have hb := bfs_path_g_bound grid start goal R.s hO.disc_mem hO.cut
              hhead l hadjl hwl start hhl hstc hlastl 0
              (by rw [gOf_eq_of_lookup _ _ _ hO.gstart])
            omega
          · have hfr' : R.s.bfs_queue = [start] := hfr
            rw [hq] at hfr'
            injection hfr' with h1 h2
            have hgs : goal = start := by rw [← hgoal, h1]
            rw [hgs, gOf_eq_of_lookup _ _ _ hO.gstart]
            have hne : l ≠ [] := by
              intro hnil
              rw [hnil] at hhl
              cases hhl
            have hlp : 1 ≤ l.length := List.length_pos.mpr hne
            omega
        have hfin : ((reconstruct_path R.s.came_from goal).length : Int) ≤
            (l.length : Int) := by omega
        exact_mod_cast hfin
    · exfalso
      rw [step_bfs_cons_continue _ _ _ _ _ hq hgoal] at hterm1
      exact hterm1 rfl

set_option maxRecDepth 400000 in
/-- Witness for C1 on the 2×1 grid: `[(0,0), (1,0)]` is a walkable path, so
the theorem yields a terminal `PathFound` carrying a minimal-length walkable
path. -/
theorem c1_witness :
    twoCellGrid.isPath ⟨0, 0⟩ ⟨1, 0⟩ [⟨0, 0⟩, ⟨1, 0⟩] ∧
    (∃ k path,
      (runSteps Algorithm.Bfs ⟨1, 0⟩ k
        (initRunState Algorithm.Bfs ⟨0, 0⟩ ⟨1, 0⟩ twoCellGrid)).status =
          RunStatus.foundPath path ∧
      twoCellGrid.isPath ⟨0, 0⟩ ⟨1, 0⟩ path ∧
      ∀ l, twoCellGrid.isPath ⟨0, 0⟩ ⟨1, 0⟩ l → path.length ≤ l.length) :=
  ⟨by decide, c1_bfs_shortest_path twoCellGrid ⟨0, 0⟩ ⟨1, 0⟩ [⟨0, 0⟩, ⟨1, 0⟩]
    (by decide)⟩

set_option maxRecDepth 400000 in
/-- Witness for C9 on the 2×1 grid: the BFS run from (0,0) to (1,0) is
still running after one step, the second step returns
`PathFound [(0,0), (1,0)]`, and that path has the claimed shape. -/
theorem c9_witness :
    (([(⟨0, 0⟩ : Position), ⟨1, 0⟩].head? = some ⟨0, 0⟩ ∧
      [(⟨0, 0⟩ : Position), ⟨1, 0⟩].getLast? = some ⟨1, 0⟩ ∧
      1 ≤ [(⟨0, 0⟩ : Position), ⟨1, 0⟩].length ∧
      ([(⟨0, 0⟩ : Position), ⟨1, 0⟩].length = 1 ↔
        (⟨0, 0⟩ : Position) = ⟨1, 0⟩)) ∧
    ((⟨0, 0⟩ : Position) = ⟨1, 0⟩ →
      (runStep1 Algorithm.Bfs ⟨1, 0⟩
        (initRunState Algorithm.Bfs ⟨0, 0⟩ ⟨1, 0⟩ twoCellGrid)).status =
        RunStatus.foundPath [⟨0, 0⟩])) :=
  c9_pathfound_path_shape Algorithm.Bfs ⟨0, 0⟩ ⟨1, 0⟩ twoCellGrid 1
    [⟨0, 0⟩, ⟨1, 0⟩] (by decide) (by decide)

end RoboNav
